import Mathlib

/-!
# Request Tracker client: the text decoder and the request envelope

A shallow embedding of `src/main.go`.

* Go strings are modelled as lists of characters (`Str`); the payloads in scope are valid UTF-8
  text.  The separators the code looks for (`'\n'`, `':'`, `' '`) are ASCII, so splitting on
  characters and splitting on bytes agree on such text.
* A Go `map` is modelled as an association list with one entry per key.  `range` over a map
  visits every entry once in an unspecified order; that order is an explicit parameter
  (`Env.rangeEntries`, `Env.rangeBuckets`) which the theorems quantify over.
* Record types are flat structs (no embedded struct), described by the list of their fields;
  a record value is the list of its field values, by position.  A field records whether it
  is exported: setting an unexported field through `reflect` aborts the program.
* A function that may abort the program returns an `Outcome`; a target that is modified in
  place is returned next to the outcome.
-/

namespace RequestTracker

/-! ## Strings -/

/-- A Go string, as the list of its characters. -/
abbrev Str := List Char

/-- Go `strings.Split(s, sep)` for a one-character separator: all the pieces between
separators, `[""]` for the empty string. -/
def split (sep : Char) : Str → List Str
  | [] => [[]]
  | c :: cs =>
    if c = sep then [] :: split sep cs
    else
      match split sep cs with
      | [] => [[c]]
      | l :: ls => (c :: l) :: ls

/-- Go `strings.SplitN(s, sep, 2)` for a one-character separator: the text before and after
the first separator, or the whole string alone when it has none. -/
def splitN2 (sep : Char) (s : Str) : List Str :=
  match s.span (fun c => c != sep) with
  | (a, []) => [a]
  | (a, _ :: b) => [a, b]

/-- Go `unicode.IsSpace`: the characters with the Unicode White_Space property. -/
def isSpace (c : Char) : Bool :=
  let n := c.toNat
  (9 ≤ n && n ≤ 13) || n = 32 || n = 0x85 || n = 0xA0 || n = 0x1680 ||
    (0x2000 ≤ n && n ≤ 0x200A) || n = 0x2028 || n = 0x2029 || n = 0x202F ||
    n = 0x205F || n = 0x3000

/-- Go `strings.TrimSpace`: leading and trailing white space removed. -/
def trimSpace (s : Str) : Str :=
  ((s.dropWhile isSpace).reverse.dropWhile isSpace).reverse

/-- Value of a decimal digit character, if it is one. -/
def digit? (c : Char) : Option Nat :=
  if 48 ≤ c.toNat ∧ c.toNat ≤ 57 then some (c.toNat - 48) else none

/-- Reads a string of decimal digits from the left, `acc` being the value read so far. -/
def digits? : Nat → Str → Option Nat
  | acc, [] => some acc
  | acc, c :: cs =>
    match digit? c with
    | none => none
    | some d => digits? (acc * 10 + d) cs

/-- Go `strconv.Atoi` for an `int` of `bits` bits: an optional sign, then one or more decimal
digits; a value outside the range of `int` is an error. -/
def atoi (bits : Nat) (s : Str) : Option Int :=
  let (neg, ds) : Bool × Str :=
    match s with
    | '-' :: r => (true, r)
    | '+' :: r => (false, r)
    | r => (false, r)
  if ds.length = 0 then none
  else
    match digits? 0 ds with
    | none => none
    | some n =>
      let v : Int := if neg then -(n : Int) else (n : Int)
      if -(2 : Int) ^ (bits - 1) ≤ v ∧ v < (2 : Int) ^ (bits - 1) then some v else none

/-! ## Maps -/

/-- A Go `map[string]string` (and other maps): an association list, one entry per key. -/
abbrev Map (κ : Type) (α : Type) := List (κ × α)

/-- Go `m[k]` where a missing key reads as `none`. -/
def Map.find {κ α : Type} [DecidableEq κ] (m : Map κ α) (k : κ) : Option α :=
  match m with
  | [] => none
  | (k', v) :: rest => if k' = k then some v else Map.find rest k

/-- Go `m[k] = v`: overwrite the entry of `k`, or add one. -/
def Map.set {κ α : Type} [DecidableEq κ] (m : Map κ α) (k : κ) (v : α) : Map κ α :=
  match m with
  | [] => [(k, v)]
  | (k', v') :: rest => if k' = k then (k, v) :: rest else (k', v') :: Map.set rest k v

/-- Go `data[k]` on a `map[string]string`: a missing key reads as the empty string. -/
def Map.get (m : Map Str Str) (k : Str) : Str :=
  (Map.find m k).getD []

/-! ## Record types and values -/

/-- How the decoder treats the type of a field: `time.Time`, `string`, `int`, or any
other type (bool, slice, map, ...), which it never assigns. -/
inductive Kind
  | string
  | int
  | time
  | other
  deriving DecidableEq, Repr

/-- A `time.Time` as the civil date and time it denotes (in UTC). -/
structure Time where
  year : Int
  month : Nat
  day : Nat
  hour : Nat
  minute : Nat
  second : Nat
  nano : Nat
  deriving DecidableEq, Repr

/-- The zero `time.Time`: January 1, year 1, 00:00:00 UTC. -/
def Time.zero : Time := ⟨1, 1, 1, 0, 0, 0, 0⟩

/-- The value of one field.  A field of another kind holds `other`: the decoder neither
reads nor writes it. -/
inductive Value
  | str (s : Str)
  | int (n : Int)
  | time (t : Time)
  | other
  deriving DecidableEq, Repr

/-- One field of a struct type: its Go name, its `rt:"..."` tag (empty when it has none),
the kind of its type, and whether the field is exported (its name begins with an upper-case
letter).  A `reflect.Value` obtained from an unexported field cannot be set. -/
structure Field where
  name : Str
  tag : Str
  kind : Kind
  exported : Bool
  deriving DecidableEq, Repr

/-- A struct type: its fields in declaration order. -/
abbrev Shape := List Field

/-- A struct value: the values of its fields, in declaration order. -/
abbrev Record := List Value

/-- The zero value of a field of the given kind. -/
def Kind.zero : Kind → Value
  | .string => .str []
  | .int => .int 0
  | .time => .time Time.zero
  | .other => .other

/-- The zero value of a struct type, as in `&Ticket{}` or `reflect.New(elType)`. -/
def Shape.zero (shape : Shape) : Record :=
  shape.map (fun f => f.kind.zero)

/-- Position of the field called exactly `name`. -/
def Shape.index (shape : Shape) (name : Str) : Option Nat :=
  let i := shape.findIdx (fun f => f.name = name)
  if i < shape.length then some i else none

/-- The value of the field called exactly `name` in a record of the given type. -/
def Record.field (shape : Shape) (r : Record) (name : Str) : Option Value :=
  match shape.index name with
  | none => none
  | some i => r[i]?

/-! ## The environment of a run -/

/-- What a run depends on besides the code of `main.go`: the library tables and functions
the decoder calls, the size of `int`, and the order in which `range` visits a map. -/
structure Env where
  /-- Unicode simple case folding: the representative of the character in its folding orbit
  (`strings.EqualFold` compares the representatives character by character). -/
  fold : Char → Char
  /-- The call `time.Parse("Mon Jan 2 15:04:05 2006", value)`; `none` when the layout rejects
  the value. -/
  parseTime : Str → Option Time
  /-- Number of bits of the Go type `int` (32 or 64). -/
  intBits : Nat
  /-- The order in which `range` visits the entries of a `map[string]string`. -/
  rangeEntries : Map Str Str → Map Str Str
  /-- The order in which `range` visits the buckets of a `map[int]map[string]string`. -/
  rangeBuckets : Map Int (Map Str Str) → Map Int (Map Str Str)

/-- A `range` over a map visits every entry exactly once: the order is a permutation. -/
def Env.Valid (E : Env) : Prop :=
  (∀ m, (E.rangeEntries m).Perm m) ∧ (∀ m, (E.rangeBuckets m).Perm m)

/-- Go `strings.EqualFold(s, t)`. -/
def equalFold (E : Env) (s t : Str) : Bool :=
  s.map E.fold = t.map E.fold

/-- Go `reflect.Type.FieldByNameFunc(match)` on a flat struct type: the position of the field
whose name satisfies `match`; no field when none does, and no field either when several do
(they cancel each other). -/
def fieldByNameFunc (shape : Shape) (p : Str → Bool) : Option Nat :=
  if shape.countP (fun f => p f.name) = 1 then some (shape.findIdx (fun f => p f.name))
  else none

/-! ## Outcomes and errors -/

/-- The result of a Go call that may abort the program. -/
inductive Outcome (α : Type)
  | returned (a : α)
  | panicked
  deriving DecidableEq, Repr

/-- The errors of the decoders, one per `fmt.Errorf` of `UnmarshalShort`, `parseList` and
`parseSingle`. -/
inductive DecodeError
  /-- Not a pointer (InvalidTarget): "cannot unmarshal into type %v, not a pointer". -/
  | notPointer
  /-- Not a struct (InvalidTarget): "cannot unmarshal into non-struct pointer". -/
  | notStruct
  /-- Not a slice (InvalidTarget): "cannot unmarshal into non-slice pointer". -/
  | notSlice
  /-- MalformedLine: "data has line without colon: %s". -/
  | malformedLine (line : Str)
  /-- CoercionError: "failed to decode %s as time: %v". -/
  | timeCoercion (value : Str)
  /-- CoercionError: "failed to decode %s as int: %v". -/
  | intCoercion (value : Str)
  deriving DecidableEq, Repr

/-- The argument `v interface{}` of a decoder. -/
inductive Target
  /-- The nil interface value. -/
  | nil
  /-- A value that is not a pointer. -/
  | notPointer
  /-- A nil pointer. -/
  | nilPointer
  /-- A non-nil pointer to a struct of the given type, with the struct's present value. -/
  | struct (shape : Shape) (r : Record)
  /-- A non-nil pointer to a slice, with the slice's present elements; `elem` is the type of
  the elements when that is a struct type (an element of another type is the empty record). -/
  | slice (elem : Option Shape) (items : List Record)
  /-- A non-nil pointer to anything else, such as `*string`. -/
  | other
  deriving DecidableEq, Repr

/-! ## Phase 1 of the decoders: payload text to key/value map -/

/-- State of the line loop of `parseSingle` and `UnmarshalShort`: the map `data` and
`lastKey`. -/
structure Scan where
  data : Map Str Str
  lastKey : Str
  deriving DecidableEq, Repr

/-- The value stored for a key line: the text after the colon, less one leading space. -/
def stripValue (rest : Str) : Str :=
  if rest.length > 0 ∧ rest.head? = some ' ' then rest.drop 1 else rest

/-- One iteration of the line loop of `parseSingle` (lines 384-405; the loop of
`UnmarshalShort`, lines 181-202, is the same text). -/
def scanLine (st : Scan) (line : Str) : Except DecodeError Scan :=
  if line.length = 0 then
    .ok st
  else
    let data :=
      if line.head? = some ' ' ∧ st.lastKey ≠ [] then
        st.data.set st.lastKey (Map.get st.data st.lastKey ++ '\n' :: trimSpace line)
      else st.data
    match splitN2 ':' line with
    | [key, rest] => .ok { data := data.set key (stripValue rest), lastKey := key }
    | _ => .error (.malformedLine line)

/-- The line loop from a given state: stops at the first error. -/
def scanLines : Scan → List Str → Except DecodeError Scan
  | st, [] => .ok st
  | st, line :: rest =>
    match scanLine st line with
    | .error e => .error e
    | .ok st' => scanLines st' rest

/-- The map `data` that `parseSingle` collects from the payload, or the error of its line
loop. -/
def collect (dataStr : Str) : Except DecodeError (Map Str Str) :=
  match scanLines { data := [], lastKey := [] } (split '\n' dataStr) with
  | .error e => .error e
  | .ok st => .ok st.data

/-! ## Phase 2 of the decoders: map entries to fields -/

/-- The type switch of the assignment loop (lines 421-437, and 216-232, 345-361): coerce
`value` to the type of the field `f` at position `i` and set the field.  A coercion error is
returned before anything is set; `Set`, `SetString` and `SetInt` abort the program when the
field is unexported; a field of another kind is left alone. -/
def setField (E : Env) (f : Field) (i : Nat) (value : Str) (r : Record) :
    Outcome (Except DecodeError Record) :=
  match f.kind with
  | .time =>
    match E.parseTime value with
    | some t => if f.exported then .returned (.ok (r.set i (.time t))) else .panicked
    | none => .returned (.error (.timeCoercion value))
  | .string => if f.exported then .returned (.ok (r.set i (.str value))) else .panicked
  | .int =>
    match atoi E.intBits value with
    | some x => if f.exported then .returned (.ok (r.set i (.int x))) else .panicked
    | none => .returned (.error (.intCoercion value))
  | .other => .returned (.ok r)

/-- The guard `value == "" || value == "Not set"` of lines 206, 333 and 409: the value counts
as absent. -/
def absent (value : Str) : Bool :=
  value = [] ∨ value = "Not set".toList

/-- The lookup of lines 337 and 413: the field whose name equals the key, ignoring case. -/
def lookupField (E : Env) (shape : Shape) (key : Str) : Option Nat :=
  fieldByNameFunc shape (fun name => equalFold E name key)

/-- One iteration of the assignment loop of `parseSingle` (lines 408-438) and of
`UnmarshalShort` (lines 205-233), which are the same text but for the lookup `look` of the
field: the value is skipped when absent or when the key finds no field, and is otherwise
coerced and set. -/
def assignStep (E : Env) (shape : Shape) (look : Str → Option Nat) (r : Record)
    (entry : Str × Str) : Outcome (Except DecodeError Record) :=
  let (key, value) := entry
  if absent value then
    .returned (.ok r)
  else
    match look key with
    | none => .returned (.ok r)
    | some i =>
      match shape[i]? with
      | none => .returned (.ok r)
      | some f => setField E f i value r

/-- The assignment loop over the entries in the order given: it stops at the first error or
abort, keeping what it assigned before. -/
def assignLoop (E : Env) (shape : Shape) (look : Str → Option Nat) :
    Record → List (Str × Str) → Outcome (Option DecodeError) × Record
  | r, [] => (.returned none, r)
  | r, entry :: rest =>
    match assignStep E shape look r entry with
    | .panicked => (.panicked, r)
    | .returned (.error e) => (.returned (some e), r)
    | .returned (.ok r') => assignLoop E shape look r' rest

/-- One iteration of the assignment loop of `parseSingle` (lines 408-438): the field is
found by `FieldByNameFunc` with `strings.EqualFold`. -/
def assignEntry (E : Env) (shape : Shape) (r : Record) (entry : Str × Str) :
    Outcome (Except DecodeError Record) :=
  assignStep E shape (lookupField E shape) r entry

/-- The assignment loop of `parseSingle` over the entries in the order given. -/
def assignAll (E : Env) (shape : Shape) (r : Record) (entries : List (Str × Str)) :
    Outcome (Option DecodeError) × Record :=
  assignLoop E shape (lookupField E shape) r entries

/-- The function `parseSingle` (lines 370-441): the error it returns (`none` for nil), or the
abort, and the target as the call leaves it. -/
def parseSingle (E : Env) (dataStr : Str) (v : Target) :
    Outcome (Option DecodeError) × Target :=
  match v with
  | .nil => (.returned (some .notPointer), v)
  | .notPointer => (.returned (some .notPointer), v)
  | .nilPointer => (.returned (some .notPointer), v)
  | .struct shape r =>
    match collect dataStr with
    | .error e => (.returned (some e), v)
    | .ok data =>
      let (out, r') := assignAll E shape r (E.rangeEntries data)
      (out, .struct shape r')
  | _ => (.returned (some .notStruct), v)

/-! ## UnmarshalShort -/

/-- The key under which `UnmarshalShort` files a field (lines 171-174): its tag, or its name
when it has no tag. -/
def Field.key (f : Field) : Str :=
  if f.tag = [] then f.name else f.tag

/-- The map `values` of `UnmarshalShort` (lines 167-176), from keys to field positions; a
later field with the same key replaces an earlier one. -/
def fieldTable : Shape → Nat → Map Str Nat → Map Str Nat
  | [], _, values => values
  | f :: rest, i, values => fieldTable rest (i + 1) (values.set f.key i)

/-- One iteration of the assignment loop of `UnmarshalShort` (lines 205-233): the field is
found by the exact lookup `values[key]`. -/
def assignEntryShort (E : Env) (shape : Shape) (values : Map Str Nat) (r : Record)
    (entry : Str × Str) : Outcome (Except DecodeError Record) :=
  assignStep E shape (fun key => Map.find values key) r entry

/-- The assignment loop of `UnmarshalShort` over the entries in the order given. -/
def assignAllShort (E : Env) (shape : Shape) (values : Map Str Nat) (r : Record)
    (entries : List (Str × Str)) : Outcome (Option DecodeError) × Record :=
  assignLoop E shape (fun key => Map.find values key) r entries

/-- The function `UnmarshalShort` (lines 155-236). -/
def UnmarshalShort (E : Env) (dataStr : Str) (v : Target) :
    Outcome (Option DecodeError) × Target :=
  match v with
  | .nil => (.returned (some .notPointer), v)
  | .notPointer => (.returned (some .notPointer), v)
  | .nilPointer => (.returned (some .notPointer), v)
  | .struct shape r =>
    let values := fieldTable shape 0 []
    match collect dataStr with
    | .error e => (.returned (some e), v)
    | .ok data =>
      let (out, r') := assignAllShort E shape values r (E.rangeEntries data)
      (out, .struct shape r')
  | _ => (.returned (some .notStruct), v)

/-! ## parseList -/

/-- State of the line loop of `parseList`: the map `data`, `lastKey` and `lastID`. -/
structure ListScan where
  data : Map Int (Map Str Str)
  lastKey : Str
  lastID : Int
  deriving DecidableEq, Repr

/-- Go `data[id][key]` read on a `map[int]map[string]string`: a missing bucket is a nil map,
which reads as the empty string. -/
def readInner (data : Map Int (Map Str Str)) (id : Int) (key : Str) : Str :=
  match data.find id with
  | none => []
  | some bucket => Map.get bucket key

/-- Go `data[id][key] = value`: when `data` has no bucket for `id` the bucket read is a nil
map, and an assignment to an entry of a nil map aborts the program. -/
def storeInner (data : Map Int (Map Str Str)) (id : Int) (key value : Str) :
    Outcome (Map Int (Map Str Str)) :=
  match data.find id with
  | none => .panicked
  | some bucket => .returned (data.set id (bucket.set key value))

/-- The value `strconv.Atoi` returns next to its error: 0 for a syntax error, the nearest
bound of `int` for a value out of range. -/
def atoiValue (bits : Nat) (s : Str) : Int :=
  match atoi bits s with
  | some v => v
  | none =>
    let (neg, ds) : Bool × Str :=
      match s with
      | '-' :: r => (true, r)
      | '+' :: r => (false, r)
      | r => (false, r)
    if ds.length = 0 then 0
    else
      match digits? 0 ds with
      | none => 0
      | some _ => if neg then -(2 : Int) ^ (bits - 1) else (2 : Int) ^ (bits - 1) - 1

/-- One iteration of the line loop of `parseList` (lines 302-327). -/
def scanListLine (E : Env) (st : ListScan) (line : Str) :
    Outcome (Except DecodeError ListScan) :=
  if line.length = 0 then
    .returned (.ok st)
  else
    let appended : Outcome (Map Int (Map Str Str)) :=
      if line.head? = some ' ' ∧ st.lastKey ≠ [] then
        storeInner st.data st.lastID st.lastKey
          (readInner st.data st.lastID st.lastKey ++ '\n' :: trimSpace line)
      else .returned st.data
    match appended with
    | .panicked => .panicked
    | .returned data =>
      match splitN2 ':' line with
      | [key, rest] =>
        match storeInner data st.lastID key (stripValue rest) with
        | .panicked => .panicked
        | .returned data' =>
          let lastID :=
            if key = "id".toList then atoiValue E.intBits (readInner data' st.lastID key)
            else st.lastID
          .returned (.ok { data := data', lastKey := key, lastID := lastID })
      | _ => .returned (.error (.malformedLine line))

/-- The line loop of `parseList` from a given state. -/
def scanListLines (E : Env) : ListScan → List Str → Outcome (Except DecodeError ListScan)
  | st, [] => .returned (.ok st)
  | st, line :: rest =>
    match scanListLine E st line with
    | .panicked => .panicked
    | .returned (.error e) => .returned (.error e)
    | .returned (.ok st') => scanListLines E st' rest

/-- One iteration of the inner assignment loop of `parseList` (lines 332-362).  The lookup
`FieldByNameFunc` aborts the program when the element type is not a struct type; the rest is
the iteration of `parseSingle`. -/
def assignListEntry (E : Env) (elem : Option Shape) (r : Record) (entry : Str × Str) :
    Outcome (Except DecodeError Record) :=
  let (key, value) := entry
  if absent value then
    .returned (.ok r)
  else
    match elem with
    | none => .panicked
    | some shape =>
      match lookupField E shape key with
      | none => .returned (.ok r)
      | some i =>
        match shape[i]? with
        | none => .returned (.ok r)
        | some f => setField E f i value r

/-- The inner assignment loop of `parseList` over the entries of one bucket. -/
def assignListAll (E : Env) (elem : Option Shape) :
    Record → List (Str × Str) → Outcome (Except DecodeError Record)
  | r, [] => .returned (.ok r)
  | r, entry :: rest =>
    match assignListEntry E elem r entry with
    | .panicked => .panicked
    | .returned (.error e) => .returned (.error e)
    | .returned (.ok r') => assignListAll E elem r' rest

/-- The outer loop of `parseList` (lines 330-364) over the buckets in the order given: one
new element per bucket, appended to the slice. -/
def appendBuckets (E : Env) (elem : Option Shape) :
    List Record → List (Int × Map Str Str) → Outcome (Option DecodeError) × List Record
  | items, [] => (.returned none, items)
  | items, (_, bucket) :: rest =>
    let newEl : Record := match elem with
      | none => []
      | some shape => shape.zero
    match assignListAll E elem newEl (E.rangeEntries bucket) with
    | .panicked => (.panicked, items)
    | .returned (.error e) => (.returned (some e), items)
    | .returned (.ok r) => appendBuckets E elem (items ++ [r]) rest

/-- The function `parseList` (lines 287-367). -/
def parseList (E : Env) (dataStr : Str) (v : Target) : Outcome (Option DecodeError) × Target :=
  match v with
  | .nil => (.returned (some .notPointer), v)
  | .notPointer => (.returned (some .notPointer), v)
  | .nilPointer => (.returned (some .notPointer), v)
  | .slice elem items =>
    match scanListLines E { data := [], lastKey := [], lastID := 0 } (split '\n' dataStr) with
    | .panicked => (.panicked, v)
    | .returned (.error e) => (.returned (some e), v)
    | .returned (.ok st) =>
      let (out, items') := appendBuckets E elem items (E.rangeBuckets st.data)
      (out, .slice elem items')
  | _ => (.returned (some .notSlice), v)

/-! ## The transport client -/

/-- Go `url.Values`: a map from parameter names to lists of values. -/
abbrev Values := Map Str (List Str)

/-- Upper-case hexadecimal digit. -/
def hexDigit (n : Nat) : Char :=
  "0123456789ABCDEF".toList.getD n '0'

/-- Go `url.QueryEscape`: letters, digits and `-_.~` stay, a space becomes `+`, every other
byte of the UTF-8 encoding becomes `%XX`. -/
def queryEscape (s : Str) : Str :=
  s.flatMap fun c =>
    if c.isAlphanum ∨ c = '-' ∨ c = '_' ∨ c = '.' ∨ c = '~' then [c]
    else if c = ' ' then ['+']
    else (String.utf8EncodeChar c).flatMap fun b => ['%', hexDigit (b.toNat / 16), hexDigit (b.toNat % 16)]

/-- Go `url.Values.Encode`: the pairs `key=value`, escaped, sorted by key and joined
by `&`. -/
def Values.encode (v : Values) : Str :=
  let keys := (v.map Prod.fst).insertionSort (fun a b => ¬ b < a)
  let pairs : List Str := keys.flatMap fun k =>
    ((Map.find v k).getD []).map fun x => queryEscape k ++ '=' :: queryEscape x
  List.intercalate ['&'] pairs

/-- Go `strconv.Itoa`. -/
def itoa (n : Int) : Str := (Int.repr n).toList

/-- What `ioutil.ReadAll(resp.Body)` gives: the whole body, or the bytes read before a read
error. -/
inductive Body
  | complete (bytes : Str)
  | failed (bytes : Str)
  deriving DecidableEq, Repr

/-- What `rt.Client.Get` gives: the status code, and what reading the body will give. -/
structure Response where
  status : Int
  body : Body
  deriving DecidableEq, Repr

/-- The struct `RT` (lines 137-142).  The HTTP client is the function from the URL requested
to the response, `none` when the request cannot be performed. -/
structure RT where
  URL : Str
  Username : Str
  Password : Str
  Client : Str → Option Response

/-- The errors of `request`, one per `fmt.Errorf` of lines 239-284. -/
inductive RequestError
  /-- TransportError: "error performing HTTP request: %v". -/
  | transport
  /-- AuthError: "server refused the provided user credentials". -/
  | auth
  /-- ServerError: "server returned status code %d". -/
  | server (status : Int)
  /-- TransportError: "error reading HTTP response: %v". -/
  | read
  /-- ProtocolError: "invalid response from server: %s". -/
  | protocol (response : Str)
  /-- DecodeError: "error parsing response: %v". -/
  | decode (cause : DecodeError)
  /-- The error of `ioutil.ReadAll` as it is, which `GetTicketAttachment` returns unwrapped
  (line 491). -/
  | readAll
  deriving DecidableEq, Repr

/-- Go `strings.SplitN(s, "\n", 3)`: at most three parts. -/
def splitN3 (sep : Char) (s : Str) : List Str :=
  match s.span (fun c => c != sep) with
  | (a, []) => [a]
  | (a, _ :: b) => a :: splitN2 sep b

/-- Go `strings.HasPrefix(s, sub)`. -/
def startsWith : Str → Str → Bool
  | _, [] => true
  | [], _ :: _ => false
  | c :: s, d :: sub => c = d && startsWith s sub

/-- Go `strings.Contains(s, sub)`. -/
def contains (s sub : Str) : Bool :=
  s.tails.any (fun t => startsWith t sub)

/-- The URL that `request` asks for (lines 240-246). -/
def requestURL (rt : RT) (path : Str) (params : Option Values) : Str :=
  let params : Values := params.getD []
  let params := params.set "user".toList [rt.Username]
  let params := params.set "pass".toList [rt.Password]
  rt.URL ++ path ++ '?' :: Values.encode params

/-- The method `request` (lines 239-284): the pair it returns, and the target as the call
leaves it. -/
def request (E : Env) (rt : RT) (path : Str) (params : Option Values) (v : Target)
    (isList : Bool) : Outcome (Int × Option RequestError) × Target :=
  match rt.Client (requestURL rt path params) with
  | none => (.returned (0, some .transport), v)
  | some resp =>
    if resp.status = 401 then (.returned (0, some .auth), v)
    else if resp.status ≠ 200 then (.returned (0, some (.server resp.status)), v)
    else
      match resp.body with
      | .failed _ => (.returned (0, some .read), v)
      | .complete responseString =>
        match splitN3 '\n' responseString with
        | [statusLine, _, payload] =>
          if !contains statusLine "RT".toList then
            (.returned (0, some (.protocol responseString)), v)
          else if v ≠ .nil then
            if isList then
              match parseList E payload v with
              | (.panicked, v') => (.panicked, v')
              | (.returned (some e), v') => (.returned (0, some (.decode e)), v')
              | (.returned none, v') => (.returned (resp.status, none), v')
            else
              match parseSingle E payload v with
              | (.panicked, v') => (.panicked, v')
              | (.returned (some e), v') => (.returned (0, some (.decode e)), v')
              | (.returned none, v') => (.returned (resp.status, none), v')
          else (.returned (resp.status, none), v)
        | _ => (.returned (0, some (.protocol responseString)), v)

/-! ## The record types of `main.go` -/

/-- A field without tag, exported when its name begins with one of the letters A to Z (the
field names of `main.go` are ASCII). -/
def fld (name : String) (kind : Kind) : Field :=
  { name := name.toList, tag := [], kind := kind,
    exported := name.toList.head?.any (fun c => 65 ≤ c.toNat ∧ c.toNat ≤ 90) }

/-- The struct `Ticket` (lines 32-56). -/
def Ticket : Shape :=
  [ { name := "ID".toList, tag := "id".toList, kind := .string, exported := true },
    fld "Queue" .string, fld "Owner" .string, fld "Creator" .string, fld "Subject" .string,
    fld "Status" .string, fld "Priority" .int, fld "InitialPriority" .int,
    fld "FinalPriority" .int, fld "Requestors" .string, fld "Cc" .string,
    fld "AdminCc" .string, fld "Created" .time, fld "Starts" .time, fld "Started" .time,
    fld "Due" .time, fld "Resolved" .time, fld "Told" .time, fld "LastUpdated" .time,
    fld "TimeEstimated" .int, fld "TimeWorked" .int, fld "TimeLeft" .int,
    fld "customFields" .other ]

/-- The struct `TicketComment` (lines 59-65). -/
def TicketComment : Shape :=
  [ fld "ID" .int, fld "Creator" .string, fld "Created" .time, fld "Content" .string,
    fld "IsPrivate" .other ]

/-- The struct `TicketCustomFieldHistory` (lines 68-72). -/
def TicketCustomFieldHistory : Shape :=
  [ fld "Field" .string, fld "Old" .string, fld "New" .string ]

/-- The struct `TicketHistory` (lines 128-134). -/
def TicketHistory : Shape :=
  [ fld "OldValue" .string, fld "NewValue" .string, fld "Field" .string,
    fld "Creator" .string, fld "Created" .time ]

/-- The struct `TicketLink` (lines 81-84). -/
def TicketLink : Shape :=
  [ fld "Type" .string, fld "ID" .int ]

/-- The method `GetTicket` (lines 444-448): the ticket and the error it returns. -/
def GetTicket (E : Env) (rt : RT) (id : Int) : Outcome (Target × Option RequestError) :=
  let ticket := Target.struct Ticket Ticket.zero
  match request E rt ("ticket/".toList ++ itoa id ++ "/show".toList) none ticket false with
  | (.panicked, _) => .panicked
  | (.returned (_, err), ticket') => .returned (ticket', err)

/-- The method `GetTicketAttachment` (lines 479-492): the URL it asks for. -/
def attachmentURL (rt : RT) (id : Int) (filename : Str) : Str :=
  rt.URL ++ "ticket/".toList ++ itoa id ++ "/attachments/".toList ++ filename

/-- The method `GetTicketAttachment` (lines 479-492): the bytes (`none` for the nil slice)
and the error it returns.  Its last line returns what `ioutil.ReadAll` returns: the bytes
read, with that function's own error when the read fails. -/
def GetTicketAttachment (rt : RT) (id : Int) (filename : Str) :
    Option Str × Option RequestError :=
  match rt.Client (attachmentURL rt id filename) with
  | none => (none, some .transport)
  | some resp =>
    if resp.status = 401 then (none, some .auth)
    else if resp.status ≠ 200 then (none, some (.server resp.status))
    else
      match resp.body with
      | .failed bytes => (some bytes, some .readAll)
      | .complete bytes => (some bytes, none)

/-- The method `GetTicketCustomField` (lines 509-513): the string and the error it returns.
The target handed to `request` is `&value`, a pointer to a string, which no decoder writes:
the string returned is the empty one. -/
def GetTicketCustomField (E : Env) (rt : RT) (id : Int) (name : Str) :
    Outcome (Str × Option RequestError) :=
  match request E rt ("ticket/".toList ++ itoa id ++ "/custom_fields/".toList ++ name) none
      Target.other false with
  | (.panicked, _) => .panicked
  | (.returned (_, err), _) => .returned ([], err)

/-! ## An environment for evaluating examples -/

/-- Case folding of the ASCII letters, every other character being its own representative:
simple case folding as far as ASCII text is compared with ASCII text. -/
def asciiFold (c : Char) : Char :=
  if 65 ≤ c.toNat ∧ c.toNat ≤ 90 then Char.ofNat (c.toNat + 32) else c

/-- Reads exactly `n` decimal digits. -/
def fixedDigits? (n : Nat) (s : Str) : Option Nat :=
  if s.length = n then digits? 0 s else none

/-- Position of a three-letter name in a table, counted from 1. -/
def nameIndex? (table : List String) (s : Str) : Option Nat :=
  let i := table.findIdx (fun t => t.toList = s)
  if i < table.length then some (i + 1) else none

/-- Number of days of a month of the Gregorian calendar. -/
def daysIn (year month : Nat) : Nat :=
  if month = 2 then
    if year % 4 = 0 ∧ (year % 100 ≠ 0 ∨ year % 400 = 0) then 29 else 28
  else if month = 4 ∨ month = 6 ∨ month = 9 ∨ month = 11 then 30
  else 31

/-- A timestamp reader for the examples.  It accepts the renderings of the layout
"Mon Jan 2 15:04:05 2006" in their plain form (English three-letter names, single spaces,
two-digit hour, minute and second, four-digit year), which `time.Parse` accepts with the same
result, and rejects every other text. -/
def stampTime (s : Str) : Option Time :=
  match split ' ' s with
  | [wd, mon, d, hms, y] =>
    match nameIndex? ["Sun", "Mon", "Tue", "Wed", "Thu", "Fri", "Sat"] wd,
      nameIndex? ["Jan", "Feb", "Mar", "Apr", "May", "Jun", "Jul", "Aug", "Sep", "Oct", "Nov",
        "Dec"] mon,
      (if d.length = 1 ∨ d.length = 2 then digits? 0 d else none),
      split ':' hms, fixedDigits? 4 y with
    | some _, some month, some day, [hh, mm, ss], some year =>
      match fixedDigits? 2 hh, fixedDigits? 2 mm, fixedDigits? 2 ss with
      | some hour, some minute, some second =>
        if 1 ≤ day ∧ day ≤ daysIn year month ∧ hour < 24 ∧ minute < 60 ∧ second < 60 then
          some ⟨year, month, day, hour, minute, second, 0⟩
        else none
      | _, _, _ => none
    | _, _, _, _, _ => none
  | _ => none

/-- An environment for the examples: ASCII case folding, the plain timestamp reader, a 64-bit
`int`, and maps visited in the order of insertion. -/
def env0 : Env :=
  { fold := asciiFold, parseTime := stampTime, intBits := 64,
    rangeEntries := id, rangeBuckets := id }

/-- The environment `env0` with maps visited in the reverse order of insertion. -/
def env1 : Env :=
  { env0 with rangeEntries := List.reverse, rangeBuckets := List.reverse }

/-! ## Vocabulary of the statements -/

/-- The key of a key line: the text before its first colon. -/
def lineKey (line : Str) : Str :=
  line.takeWhile (fun c => c != ':')

/-- The text of a key line after its first colon. -/
def lineRest (line : Str) : Str :=
  (line.dropWhile (fun c => c != ':')).drop 1

/-- The entry is assigned to the field at position `i`: its value is present and the lookup
of its key finds that field. -/
def touches (E : Env) (shape : Shape) (i : Nat) (entry : Str × Str) : Prop :=
  absent entry.2 = false ∧ lookupField E shape entry.1 = some i

instance (E : Env) (shape : Shape) (i : Nat) (entry : Str × Str) :
    Decidable (touches E shape i entry) :=
  inferInstanceAs (Decidable (_ ∧ _))

/-- The two coercion errors. -/
def DecodeError.isCoercion : DecodeError → Bool
  | .timeCoercion _ => true
  | .intCoercion _ => true
  | _ => false

/-- The value a key line stores: the text after its first colon, less one leading space. -/
def lineValue (line : Str) : Str :=
  stripValue (lineRest line)

/-- The non-empty lines of a payload. -/
def keyLines (dataStr : Str) : List Str :=
  (split '\n' dataStr).filter (fun l => l ≠ [])

/-- A payload of plain key lines: every non-empty line contains a colon and does not begin
with a space, and the keys of the lines are pairwise distinct ignoring case. -/
def PlainPayload (E : Env) (dataStr : Str) : Prop :=
  (∀ l ∈ keyLines dataStr, ':' ∈ l ∧ l.head? ≠ some ' ') ∧
  (keyLines dataStr).Pairwise (fun a b => equalFold E (lineKey a) (lineKey b) = false)

instance (E : Env) (dataStr : Str) : Decidable (PlainPayload E dataStr) :=
  inferInstanceAs (Decidable (_ ∧ _))

/-- The field names of a record type are pairwise distinct ignoring case. -/
def DistinctNames (E : Env) (shape : Shape) : Prop :=
  shape.Pairwise (fun a b => equalFold E a.name b.name = false)

instance (E : Env) (shape : Shape) : Decidable (DistinctNames E shape) :=
  inferInstanceAs (Decidable (List.Pairwise _ _))

/-- Every field of the record type that the decoder can assign (string, int, time.Time) is
exported, as in every record type of `main.go`. -/
def Settable (shape : Shape) : Prop :=
  ∀ f ∈ shape, f.kind ≠ .other → f.exported = true

instance (shape : Shape) : Decidable (Settable shape) :=
  inferInstanceAs (Decidable (∀ f ∈ shape, _))

/-- The value an assignment gives a field of the given kind, when the coercion accepts the
text. -/
def coerce? (E : Env) (kind : Kind) (value : Str) : Option Value :=
  match kind with
  | .string => some (.str value)
  | .int => (atoi E.intBits value).map .int
  | .time => (E.parseTime value).map .time
  | .other => none

/-- The entry is assigned to the field at position `i` under the lookup `look`: its value is
present and its key finds that field. -/
def touchesWith (look : Str → Option Nat) (i : Nat) (entry : Str × Str) : Prop :=
  absent entry.2 = false ∧ look entry.1 = some i

/-- The coercion of the value to a field of the given kind does not fail. -/
def coercible (E : Env) (kind : Kind) (value : Str) : Bool :=
  match kind with
  | .time => (E.parseTime value).isSome
  | .int => (atoi E.intBits value).isSome
  | _ => true

/-- The field names are usable as keys of key lines, as Go identifiers are: no colon, no
newline, no leading space. -/
def ValidNames (shape : Shape) : Prop :=
  ∀ f ∈ shape, ':' ∉ f.name ∧ '\n' ∉ f.name ∧ f.name.head? ≠ some ' '

instance (shape : Shape) : Decidable (ValidNames shape) :=
  inferInstanceAs (Decidable (∀ f ∈ shape, _))

/-- The lines the round-trip property writes for a record of string fields with the values
`vals`: one line "<field name>: <value>" per field with a non-empty value, the fields with
an empty value being left out.  (The words of the property; `main.go` has no serializer.) -/
def renderLines : Shape → List Str → List Str
  | f :: shape, v :: vals =>
    if v = [] then renderLines shape vals
    else (f.name ++ ':' :: ' ' :: v) :: renderLines shape vals
  | _, _ => []

/-- The payload of the round-trip property: the lines of `renderLines`, each ended by a
newline. -/
def serialize (shape : Shape) (vals : List Str) : Str :=
  (renderLines shape vals).flatMap (fun l => l ++ ['\n'])

/-- The target is a non-nil pointer to a struct. -/
def Target.isStruct : Target → Bool
  | .struct _ _ => true
  | _ => false

/-- The environment `E` with the entries of a map visited in the order `order`. -/
def Env.visiting (E : Env) (order : Map Str Str → Map Str Str) : Env :=
  { E with rangeEntries := order }

/-- An outcome `parseSingle` can have on the payload and target, for some order of visiting
the collected entries (the library functions being those of `E`). -/
def MayReturn (E : Env) (dataStr : Str) (v : Target)
    (o : Outcome (Option DecodeError) × Target) : Prop :=
  ∃ order : Map Str Str → Map Str Str,
    (∀ m, (order m).Perm m) ∧ parseSingle (E.visiting order) dataStr v = o

/-- No two collected entries with a present value are looked up to the same field. -/
def NoSharedField (E : Env) (shape : Shape) (data : Map Str Str) : Prop :=
  ∀ x ∈ data, ∀ y ∈ data, absent x.2 = false → absent y.2 = false →
    lookupField E shape x.1 ≠ none → lookupField E shape x.1 = lookupField E shape y.1 → x = y

instance (E : Env) (shape : Shape) (data : Map Str Str) :
    Decidable (NoSharedField E shape data) :=
  inferInstanceAs (Decidable (∀ x ∈ data, _))

/-- A non-empty line without colon: what the decoders reject. -/
def malformed (line : Str) : Bool :=
  line ≠ [] ∧ ':' ∉ line

/-! ## Splitting -/

theorem splitN2_of_not_mem {sep : Char} {s : Str} (h : sep ∉ s) : splitN2 sep s = [s] := by
  have hd : s.dropWhile (fun c => c != sep) = [] := by
    rw [List.dropWhile_eq_nil_iff]
    intro x hx
    have : x ≠ sep := fun e => h (e ▸ hx)
    simpa using this
  have ht : s.takeWhile (fun c => c != sep) = s := by
    have := List.takeWhile_append_dropWhile (fun c => c != sep) s
    rwa [hd, List.append_nil] at this
  simp [splitN2, List.span_eq_take_drop, hd, ht]

theorem dropWhile_ne_of_mem {sep : Char} {s : Str} (h : sep ∈ s) :
    s.dropWhile (fun c => c != sep) = sep :: (s.dropWhile (fun c => c != sep)).drop 1 := by
  induction s with
  | nil => simp at h
  | cons c cs ih =>
    by_cases hc : c = sep
    · subst hc
      simp [List.dropWhile_cons]
    · have hm : sep ∈ cs := by
        rcases List.mem_cons.1 h with e | e
        · exact absurd e.symm hc
        · exact e
      have hb : (c != sep) = true := by simpa using hc
      rw [List.dropWhile_cons, hb]
      simpa using ih hm

theorem splitN2_of_mem {sep : Char} {s : Str} (h : sep ∈ s) :
    splitN2 sep s =
      [s.takeWhile (fun c => c != sep), (s.dropWhile (fun c => c != sep)).drop 1] := by
  have hd := dropWhile_ne_of_mem h
  unfold splitN2
  rw [List.span_eq_take_drop, hd]
  simp

/-! ## The line loop -/

theorem scanLine_nil (st : Scan) : scanLine st [] = .ok st := by
  simp [scanLine]

theorem scanLine_malformed {st : Scan} {line : Str} (h : malformed line = true) :
    scanLine st line = .error (.malformedLine line) := by
  simp only [malformed, decide_eq_true_eq] at h
  have hl : line.length ≠ 0 := by simpa using h.1
  simp [scanLine, hl, splitN2_of_not_mem h.2]

theorem scanLine_key {st : Scan} {line : Str} (h0 : line ≠ []) (h : ':' ∈ line) :
    scanLine st line = .ok
      { data := Map.set
          (if line.head? = some ' ' ∧ st.lastKey ≠ [] then
            Map.set st.data st.lastKey (Map.get st.data st.lastKey ++ '\n' :: trimSpace line)
          else st.data) (lineKey line) (stripValue (lineRest line)),
        lastKey := lineKey line } := by
  have hl : line.length ≠ 0 := by simpa using h0
  simp only [scanLine, hl, if_false, splitN2_of_mem h, lineKey, lineRest]

theorem scanLine_of_not_malformed (st : Scan) {line : Str} (h : malformed line = false) :
    ∃ st', scanLine st line = .ok st' := by
  by_cases h0 : line = []
  · subst h0
    exact ⟨st, scanLine_nil st⟩
  · have hc : ':' ∈ line := by
      by_contra hc
      simp [malformed, h0, hc] at h
    exact ⟨_, scanLine_key h0 hc⟩

theorem scanLines_malformed {lines : List Str} {bad : Str}
    (h : lines.find? malformed = some bad) (st : Scan) :
    scanLines st lines = .error (.malformedLine bad) := by
  induction lines generalizing st with
  | nil => simp at h
  | cons l ls ih =>
    rw [List.find?_cons] at h
    cases hm : malformed l with
    | true =>
      rw [hm] at h
      simp only [Option.some.injEq] at h
      subst h
      simp [scanLines, scanLine_malformed hm]
    | false =>
      rw [hm] at h
      obtain ⟨st', hst⟩ := scanLine_of_not_malformed st hm
      simp only [scanLines, hst]
      exact ih h st'

theorem collect_malformed {dataStr bad : Str}
    (h : (split '\n' dataStr).find? malformed = some bad) :
    collect dataStr = .error (.malformedLine bad) := by
  simp [collect, scanLines_malformed h]

/-! ## Decoding: the claims -/

/-- Claim C2, evaluated on the code: decoding "content: hello\n world\n" does not give
Content = "hello\nworld".  After appending the continuation line to the value of `content`,
the loop goes on to split the same line at a colon, finds none, and returns the
line-without-colon error; the target is left as it was.  This holds for every record type,
every prior value of the record and every environment. -/
theorem parseSingle_continuation_fails (E : Env) (shape : Shape) (r : Record) :
    parseSingle E "content: hello\n world\n".toList (.struct shape r) =
      (.returned (some (.malformedLine " world".toList)), .struct shape r) := by
  have h : collect "content: hello\n world\n".toList =
      .error (.malformedLine " world".toList) := rfl
  simp only [parseSingle, h]

/-- Claim C3: when a payload has a non-empty line without colon, and `bad` is the first such
line, `parseSingle` and `UnmarshalShort` into a record both return the line-without-colon
error naming `bad`, and the record is left exactly as it was: nothing has been assigned and
no coercion has been attempted. -/
theorem malformed_line_rejected (E : Env) (dataStr bad : Str) (shape : Shape) (r : Record)
    (h : (split '\n' dataStr).find? malformed = some bad) :
    parseSingle E dataStr (.struct shape r) =
      (.returned (some (.malformedLine bad)), .struct shape r) ∧
    UnmarshalShort E dataStr (.struct shape r) =
      (.returned (some (.malformedLine bad)), .struct shape r) := by
  simp [parseSingle, UnmarshalShort, collect_malformed h]

/-- Witness of `malformed_line_rejected`: the payload "id: 7\nstatus\nqueue\n" decoded into a
fresh Ticket, whose first line without colon is "status". -/
theorem malformed_line_rejected_witness :
    (split '\n' "id: 7\nstatus\nqueue\n".toList).find? malformed = some "status".toList ∧
    parseSingle env0 "id: 7\nstatus\nqueue\n".toList (.struct Ticket Ticket.zero) =
      (.returned (some (.malformedLine "status".toList)), .struct Ticket Ticket.zero) ∧
    UnmarshalShort env0 "id: 7\nstatus\nqueue\n".toList (.struct Ticket Ticket.zero) =
      (.returned (some (.malformedLine "status".toList)), .struct Ticket Ticket.zero) :=
  ⟨by decide, malformed_line_rejected env0 _ _ Ticket Ticket.zero (by decide)⟩

/-- Claim C7, evaluated on the code: the list decode of two blocks, each starting with an
`id:` line, does not return two records.  The first key line is stored with
`data[lastID][lastKey] = ...` while `data` has no bucket for `lastID`: the bucket read is a
nil map and the assignment aborts the program, the slice being left as it was.  This holds for
every element type, every prior content of the slice and every environment. -/
theorem parseList_two_blocks_panics (E : Env) (elem : Option Shape) (items : List Record) :
    parseList E "id: 1\ntype: DependsOn\nid: 2\ntype: RefersTo\n".toList (.slice elem items) =
      (.panicked, .slice elem items) := by
  rfl

/-! ## The envelope -/

theorem split_ne_nil (sep : Char) (s : Str) : split sep s ≠ [] := by
  cases s with
  | nil => simp [split]
  | cons c cs =>
    unfold split
    split
    · simp
    · split <;> simp

theorem split_of_not_mem {sep : Char} {s : Str} (h : sep ∉ s) : split sep s = [s] := by
  induction s with
  | nil => rfl
  | cons c cs ih =>
    have hc : c ≠ sep := fun e => h (e ▸ List.mem_cons_self _ _)
    have hcs : sep ∉ cs := fun e => h (List.mem_cons_of_mem _ e)
    simp [split, hc, ih hcs]

theorem split_of_mem {sep : Char} {s : Str} (h : sep ∈ s) :
    split sep s = s.takeWhile (fun c => c != sep) ::
      split sep ((s.dropWhile (fun c => c != sep)).drop 1) := by
  induction s with
  | nil => simp at h
  | cons c cs ih =>
    by_cases hc : c = sep
    · subst hc
      simp [split, List.takeWhile_cons, List.dropWhile_cons]
    · have hm : sep ∈ cs := by
        rcases List.mem_cons.1 h with e | e
        · exact absurd e.symm hc
        · exact e
      have hb : (c != sep) = true := by simpa using hc
      simp only [split, hc, if_false, ih hm, List.takeWhile_cons, List.dropWhile_cons, hb,
        if_true]

theorem splitN3_three {sep : Char} {s a b c : Str} (h : splitN3 sep s = [a, b, c]) :
    (split sep s).headD [] = a ∧ 3 ≤ (split sep s).length := by
  by_cases h1 : sep ∈ s
  · have hd := dropWhile_ne_of_mem h1
    have e3 : splitN3 sep s = s.takeWhile (fun c => c != sep) ::
        splitN2 sep ((s.dropWhile (fun c => c != sep)).drop 1) := by
      unfold splitN3
      rw [List.span_eq_take_drop, hd]
      simp
    rw [e3] at h
    by_cases h2 : sep ∈ (s.dropWhile (fun c => c != sep)).drop 1
    · rw [split_of_mem h1, split_of_mem h2]
      simp only [List.cons.injEq] at h
      refine ⟨by simpa using h.1, ?_⟩
      have := List.length_pos.2 (split_ne_nil sep
        ((List.dropWhile (fun c => c != sep)
          (List.drop 1 (List.dropWhile (fun c => c != sep) s))).drop 1))
      simp only [List.length_cons]
      omega
    · rw [splitN2_of_not_mem h2] at h
      simp at h
  · have e3 : splitN3 sep s = [s] := by
      have hd : s.dropWhile (fun c => c != sep) = [] := by
        rw [List.dropWhile_eq_nil_iff]
        intro x hx
        have : x ≠ sep := fun e => h1 (e ▸ hx)
        simpa using this
      have ht : s.takeWhile (fun c => c != sep) = s := by
        have := List.takeWhile_append_dropWhile (fun c => c != sep) s
        rwa [hd, List.append_nil] at this
      simp [splitN3, List.span_eq_take_drop, hd, ht]
    rw [e3] at h
    simp at h

/-- Claim C9: when the server answers with status 200 and a body that splits on newline into
fewer than three parts, or whose first line does not contain "RT", `request` returns code 0
with the invalid-response error (ProtocolError); the decoder is not called, so the target is
exactly as it was. -/
theorem request_rejects_bad_envelope (E : Env) (rt : RT) (path : Str) (params : Option Values)
    (v : Target) (isList : Bool) (body : Str)
    (hresp : rt.Client (requestURL rt path params) = some ⟨200, .complete body⟩)
    (henv : (split '\n' body).length < 3 ∨
      contains ((split '\n' body).headD []) "RT".toList = false) :
    request E rt path params v isList = (.returned (0, some (.protocol body)), v) := by
  unfold request
  rw [hresp]
  simp only [show ((200 : Int) = 401) = False from by simp, if_false, ne_eq, not_true_eq_false]
  split
  · rename_i a b c h3
    obtain ⟨hhead, hlen⟩ := splitN3_three h3
    rcases henv with hl | hc
    · omega
    · rw [hhead] at hc
      have hc' : contains a ['R', 'T'] = false := hc
      simp [hc']
  · rfl

/-- Witness of `request_rejects_bad_envelope`: the body "HTTP/1.1 200 Ok\n\nid: 7\n", whose
first line lacks the marker, requested into a fresh Ticket. -/
theorem request_rejects_bad_envelope_witness :
    request env0
      ⟨"https://rt.example.com/REST/1.0/".toList, "user".toList, "password".toList,
        fun _ => some ⟨200, .complete "HTTP/1.1 200 Ok\n\nid: 7\n".toList⟩⟩
      "ticket/1/show".toList none (.struct Ticket Ticket.zero) false =
      (.returned (0, some (.protocol "HTTP/1.1 200 Ok\n\nid: 7\n".toList)),
        .struct Ticket Ticket.zero) :=
  request_rejects_bad_envelope env0 _ _ none _ false _ rfl (Or.inr (by decide))

/-- Claim C10: for every response, `request` fails with the credentials-refused error
(AuthError) exactly when the status is 401; for every other status different from 200 it
fails with the error carrying that status (ServerError); in both cases it returns code 0 and
leaves the target as it was, whatever the body; and whenever it returns without error the
code returned is the status of the response, which is 200. -/
theorem request_status_handling (E : Env) (rt : RT) (path : Str) (params : Option Values)
    (v : Target) (isList : Bool) (resp : Response)
    (hresp : rt.Client (requestURL rt path params) = some resp) :
    ((∃ code, (request E rt path params v isList).1 = .returned (code, some .auth)) ↔
        resp.status = 401) ∧
    (resp.status = 401 →
        request E rt path params v isList = (.returned (0, some .auth), v)) ∧
    (resp.status ≠ 401 → resp.status ≠ 200 →
        request E rt path params v isList = (.returned (0, some (.server resp.status)), v)) ∧
    (∀ code, (request E rt path params v isList).1 = .returned (code, none) →
        code = resp.status ∧ resp.status = 200) := by
  have h401 : resp.status = 401 →
      request E rt path params v isList = (.returned (0, some .auth), v) := by
    intro h
    simp [request, hresp, h]
  have hsrv : resp.status ≠ 401 → resp.status ≠ 200 →
      request E rt path params v isList = (.returned (0, some (.server resp.status)), v) := by
    intro h1 h2
    simp [request, hresp, h1, h2]
  have h200 : resp.status = 200 → ∀ code err,
      (request E rt path params v isList).1 = .returned (code, err) →
        err ≠ some .auth ∧ (err = none → code = 200) := by
    intro h code err
    unfold request
    rw [hresp]
    simp only [h, show ((200 : Int) = 401) = False from by simp, if_false, ne_eq,
      not_true_eq_false]
    cases resp.body with
    | failed partialBytes =>
      intro hr
      simp only [Outcome.returned.injEq, Prod.mk.injEq] at hr
      obtain ⟨-, rfl⟩ := hr
      simp
    | complete responseString =>
      simp only
      split
      · split
        · intro hr
          simp only [Outcome.returned.injEq, Prod.mk.injEq] at hr
          obtain ⟨-, rfl⟩ := hr
          simp
        · split
          · split
            · split
              · intro hr
                simp at hr
              · intro hr
                simp only [Outcome.returned.injEq, Prod.mk.injEq] at hr
                obtain ⟨-, rfl⟩ := hr
                simp
              · intro hr
                simp only [Outcome.returned.injEq, Prod.mk.injEq] at hr
                obtain ⟨rfl, rfl⟩ := hr
                simp
            · split
              · intro hr
                simp at hr
              · intro hr
                simp only [Outcome.returned.injEq, Prod.mk.injEq] at hr
                obtain ⟨-, rfl⟩ := hr
                simp
              · intro hr
                simp only [Outcome.returned.injEq, Prod.mk.injEq] at hr
                obtain ⟨rfl, rfl⟩ := hr
                simp
          · intro hr
            simp only [Outcome.returned.injEq, Prod.mk.injEq] at hr
            obtain ⟨rfl, rfl⟩ := hr
            simp
      · intro hr
        simp only [Outcome.returned.injEq, Prod.mk.injEq] at hr
        obtain ⟨-, rfl⟩ := hr
        simp
  refine ⟨⟨?_, fun h => ⟨0, by rw [h401 h]⟩⟩, h401, hsrv, ?_⟩
  · rintro ⟨code, hc⟩
    by_contra hne
    by_cases h2 : resp.status = 200
    · exact (h200 h2 code _ hc).1 rfl
    · rw [hsrv hne h2] at hc
      simp at hc
  · intro code hc
    by_cases h1 : resp.status = 401
    · rw [h401 h1] at hc
      simp at hc
    · by_cases h2 : resp.status = 200
      · exact ⟨by rw [h2]; exact (h200 h2 code none hc).2 rfl, h2⟩
      · rw [hsrv h1 h2] at hc
        simp at hc

/-- Witness of `request_status_handling`: a response with status 503. -/
theorem request_status_handling_witness :
    request env0
      ⟨"https://rt.example.com/REST/1.0/".toList, "user".toList, "password".toList,
        fun _ => some ⟨503, .complete "RT/4.0.7 200 Ok\n\nid: 7\n".toList⟩⟩
      "ticket/1/show".toList none (.struct Ticket Ticket.zero) false =
      (.returned (0, some (.server 503)), .struct Ticket Ticket.zero) :=
  (request_status_handling env0 _ _ none (.struct Ticket Ticket.zero) false
    ⟨503, .complete "RT/4.0.7 200 Ok\n\nid: 7\n".toList⟩ rfl).2.2.1 (by decide) (by decide)

/-! ## The assignment loop -/

theorem setField_cases (E : Env) (f : Field) (i : Nat) (value : Str) :
    (f.kind = .other ∧ ∀ r, setField E f i value r = .returned (.ok r)) ∨
    (∃ val, f.kind ≠ .other ∧ f.exported = true ∧ coerce? E f.kind value = some val ∧
      ∀ r, setField E f i value r = .returned (.ok (r.set i val))) ∨
    (∃ e, e.isCoercion = true ∧ coercible E f.kind value = false ∧
      ∀ r, setField E f i value r = .returned (.error e)) ∨
    (f.kind ≠ .other ∧ f.exported = false ∧ coercible E f.kind value = true ∧
      ∀ r, setField E f i value r = .panicked) := by
  cases hk : f.kind with
  | other => exact Or.inl ⟨rfl, fun r => by simp [setField, hk]⟩
  | string =>
    cases hx : f.exported with
    | true =>
      exact Or.inr (Or.inl ⟨.str value, by simp, rfl, by simp [coerce?], fun r => by
        simp [setField, hk, hx]⟩)
    | false =>
      exact Or.inr (Or.inr (Or.inr ⟨by simp, rfl, by simp [coercible], fun r => by
        simp [setField, hk, hx]⟩))
  | time =>
    cases hp : E.parseTime value with
    | none =>
      exact Or.inr (Or.inr (Or.inl ⟨.timeCoercion value, rfl, by simp [coercible, hp],
        fun r => by simp [setField, hk, hp]⟩))
    | some t =>
      cases hx : f.exported with
      | true =>
        exact Or.inr (Or.inl ⟨.time t, by simp, rfl, by simp [coerce?, hp], fun r => by
          simp [setField, hk, hp, hx]⟩)
      | false =>
        exact Or.inr (Or.inr (Or.inr ⟨by simp, rfl, by simp [coercible, hp], fun r => by
          simp [setField, hk, hp, hx]⟩))
  | int =>
    cases hp : atoi E.intBits value with
    | none =>
      exact Or.inr (Or.inr (Or.inl ⟨.intCoercion value, rfl, by simp [coercible, hp],
        fun r => by simp [setField, hk, hp]⟩))
    | some n =>
      cases hx : f.exported with
      | true =>
        exact Or.inr (Or.inl ⟨.int n, by simp, rfl, by simp [coerce?, hp], fun r => by
          simp [setField, hk, hp, hx]⟩)
      | false =>
        exact Or.inr (Or.inr (Or.inr ⟨by simp, rfl, by simp [coercible, hp], fun r => by
          simp [setField, hk, hp, hx]⟩))

theorem assignStep_absent {E : Env} {shape : Shape} {look : Str → Option Nat}
    (entry : Str × Str) (h : absent entry.2 = true) (r : Record) :
    assignStep E shape look r entry = .returned (.ok r) := by
  obtain ⟨key, value⟩ := entry
  simp only at h
  simp [assignStep, h]

theorem assignStep_found {E : Env} {shape : Shape} {look : Str → Option Nat} {key value : Str}
    {i : Nat} {f : Field} (hab : absent value = false) (hi : look key = some i)
    (hf : shape[i]? = some f) (r : Record) :
    assignStep E shape look r (key, value) = setField E f i value r := by
  simp [assignStep, hab, hi, hf]

theorem assignStep_cases (E : Env) (shape : Shape) (look : Str → Option Nat)
    (x : Str × Str) :
    (∀ r, assignStep E shape look r x = .returned (.ok r)) ∨
    (∃ i f val, touchesWith look i x ∧ shape[i]? = some f ∧ f.kind ≠ .other ∧
      f.exported = true ∧ coerce? E f.kind x.2 = some val ∧
      ∀ r, assignStep E shape look r x = .returned (.ok (r.set i val))) ∨
    (∃ i f e, touchesWith look i x ∧ shape[i]? = some f ∧ e.isCoercion = true ∧
      coercible E f.kind x.2 = false ∧
      ∀ r, assignStep E shape look r x = .returned (.error e)) ∨
    (∃ i f, touchesWith look i x ∧ shape[i]? = some f ∧ f.kind ≠ .other ∧
      f.exported = false ∧ ∀ r, assignStep E shape look r x = .panicked) := by
  obtain ⟨key, value⟩ := x
  by_cases hab : absent value = true
  · exact Or.inl (fun r => assignStep_absent (key, value) hab r)
  · have hab' : absent value = false := by simpa using hab
    cases hi : look key with
    | none => exact Or.inl (fun r => by simp [assignStep, hab', hi])
    | some i =>
      cases hf : shape[i]? with
      | none => exact Or.inl (fun r => by simp [assignStep, hab', hi, hf])
      | some f =>
        have ht : touchesWith look i (key, value) := ⟨hab', hi⟩
        rcases setField_cases E f i value with ⟨-, h⟩ | ⟨val, h1, h2, h3, h⟩ |
          ⟨e, h1, h2, h⟩ | ⟨h1, h2, -, h⟩
        · exact Or.inl (fun r => by rw [assignStep_found hab' hi hf, h])
        · exact Or.inr (Or.inl ⟨i, f, val, ht, hf, h1, h2, h3, fun r => by
            rw [assignStep_found hab' hi hf, h]⟩)
        · exact Or.inr (Or.inr (Or.inl ⟨i, f, e, ht, hf, h1, h2, fun r => by
            rw [assignStep_found hab' hi hf, h]⟩))
        · exact Or.inr (Or.inr (Or.inr ⟨i, f, ht, hf, h1, h2, fun r => by
            rw [assignStep_found hab' hi hf, h]⟩))

theorem assignStep_ok_inv {E : Env} {shape : Shape} {look : Str → Option Nat} {r r' : Record}
    {x : Str × Str} (h : assignStep E shape look r x = .returned (.ok r')) :
    r'.length = r.length ∧ ∀ i, ¬ touchesWith look i x → r'[i]? = r[i]? := by
  rcases assignStep_cases E shape look x with h0 | ⟨j, f, val, ht, -, -, -, -, h1⟩ |
    ⟨j, f, e, -, -, -, -, h1⟩ | ⟨j, f, -, -, -, -, h1⟩
  · rw [h0 r] at h
    cases h
    exact ⟨rfl, fun _ _ => rfl⟩
  · rw [h1 r] at h
    cases h
    refine ⟨by simp, fun i hi => ?_⟩
    have hji : j ≠ i := by
      intro e
      rw [e] at ht
      exact hi ht
    simp [List.getElem?_set, hji]
  · rw [h1 r] at h
    cases h
  · rw [h1 r] at h
    cases h

theorem assignStep_error_all {E : Env} {shape : Shape} {look : Str → Option Nat} {r : Record}
    {x : Str × Str} {e : DecodeError}
    (h : assignStep E shape look r x = .returned (.error e)) :
    e.isCoercion = true ∧ ∀ r2, assignStep E shape look r2 x = .returned (.error e) := by
  rcases assignStep_cases E shape look x with h0 | ⟨j, f, val, -, -, -, -, -, h1⟩ |
    ⟨j, f, e', -, -, hc, -, h1⟩ | ⟨j, f, -, -, -, -, h1⟩
  · rw [h0 r] at h
    cases h
  · rw [h1 r] at h
    cases h
  · rw [h1 r] at h
    cases h
    exact ⟨hc, h1⟩
  · rw [h1 r] at h
    cases h

theorem assignStep_panic_all {E : Env} {shape : Shape} {look : Str → Option Nat} {r : Record}
    {x : Str × Str} (h : assignStep E shape look r x = .panicked) :
    (∃ f ∈ shape, f.kind ≠ .other ∧ f.exported = false) ∧
      ∀ r2, assignStep E shape look r2 x = .panicked := by
  rcases assignStep_cases E shape look x with h0 | ⟨j, f, val, -, -, -, -, -, h1⟩ |
    ⟨j, f, e', -, -, -, -, h1⟩ | ⟨j, f, -, hf, hk, hx, h1⟩
  · rw [h0 r] at h
    cases h
  · rw [h1 r] at h
    cases h
  · rw [h1 r] at h
    cases h
  · exact ⟨⟨f, List.getElem?_mem hf, hk, hx⟩, h1⟩

theorem assignStep_ok_all {E : Env} {shape : Shape} {look : Str → Option Nat} {r r' : Record}
    {x : Str × Str} (h : assignStep E shape look r x = .returned (.ok r')) (r2 : Record) :
    ∃ r2', assignStep E shape look r2 x = .returned (.ok r2') := by
  rcases assignStep_cases E shape look x with h0 | ⟨j, f, val, -, -, -, -, -, h1⟩ |
    ⟨j, f, e', -, -, -, -, h1⟩ | ⟨j, f, -, -, -, -, h1⟩
  · exact ⟨_, h0 r2⟩
  · exact ⟨_, h1 r2⟩
  · rw [h1 r] at h
    cases h
  · rw [h1 r] at h
    cases h

theorem assignLoop_length {E : Env} {shape : Shape} {look : Str → Option Nat}
    (es : List (Str × Str)) (r : Record) :
    (assignLoop E shape look r es).2.length = r.length := by
  induction es generalizing r with
  | nil => rfl
  | cons e rest ih =>
    simp only [assignLoop]
    split
    · rfl
    · rfl
    · rename_i r1 h1
      rw [ih r1, (assignStep_ok_inv h1).1]

theorem assignLoop_frame_of {E : Env} {shape : Shape} {look : Str → Option Nat} {i : Nat}
    (es : List (Str × Str)) (r : Record)
    (h : ∀ e ∈ es, ∀ r0 r1, assignStep E shape look r0 e = .returned (.ok r1) →
      r1[i]? = r0[i]?) :
    (assignLoop E shape look r es).2[i]? = r[i]? := by
  induction es generalizing r with
  | nil => rfl
  | cons e rest ih =>
    simp only [assignLoop]
    split
    · rfl
    · rfl
    · rename_i r1 h1
      rw [ih r1 (fun e' he' => h e' (List.mem_cons_of_mem _ he')),
        h e (List.mem_cons_self _ _) r r1 h1]

theorem assignLoop_frame {E : Env} {shape : Shape} {look : Str → Option Nat} {i : Nat}
    (es : List (Str × Str)) (r : Record) (h : ∀ e ∈ es, ¬ touchesWith look i e) :
    (assignLoop E shape look r es).2[i]? = r[i]? :=
  assignLoop_frame_of es r (fun e he _ _ h1 => (assignStep_ok_inv h1).2 i (h e he))

theorem assignLoop_outcome {E : Env} {shape : Shape} {look : Str → Option Nat}
    (es : List (Str × Str)) (r : Record) :
    (assignLoop E shape look r es).1 = .returned none ∨
    (∃ e, (assignLoop E shape look r es).1 = .returned (some e) ∧ e.isCoercion = true) ∨
    ((assignLoop E shape look r es).1 = .panicked ∧
      ∃ f ∈ shape, f.kind ≠ .other ∧ f.exported = false) := by
  induction es generalizing r with
  | nil => exact Or.inl rfl
  | cons x rest ih =>
    simp only [assignLoop]
    split
    · rename_i h1
      exact Or.inr (Or.inr ⟨rfl, (assignStep_panic_all h1).1⟩)
    · rename_i e h1
      exact Or.inr (Or.inl ⟨e, rfl, (assignStep_error_all h1).1⟩)
    · rename_i r1 h1
      exact ih r1

theorem assignLoop_none_iff {E : Env} {shape : Shape} {look : Str → Option Nat}
    (es : List (Str × Str)) (r : Record) :
    (assignLoop E shape look r es).1 = .returned none ↔
      ∀ x ∈ es, ∀ r0, ∃ r1, assignStep E shape look r0 x = .returned (.ok r1) := by
  induction es generalizing r with
  | nil => simp [assignLoop]
  | cons x rest ih =>
    simp only [assignLoop]
    constructor
    · intro h
      split at h
      · cases h
      · cases h
      · rename_i r1 h1
        intro y hy r0
        rcases List.mem_cons.1 hy with e | e
        · rw [e]
          exact assignStep_ok_all h1 r0
        · exact (ih r1).1 h y e r0
    · intro h
      obtain ⟨r1, h1⟩ := h x (List.mem_cons_self _ _) r
      rw [h1]
      exact (ih r1).2 (fun y hy => h y (List.mem_cons_of_mem _ hy))

theorem assignLoop_settable {E : Env} {shape : Shape} {look : Str → Option Nat}
    (hs : Settable shape) (es : List (Str × Str)) (r : Record) :
    (assignLoop E shape look r es).1 ≠ .panicked := by
  intro h
  rcases @assignLoop_outcome E shape look es r with h1 | ⟨e, h1, -⟩ | ⟨-, f, hf, hk, hx⟩
  · rw [h1] at h
    cases h
  · rw [h1] at h
    cases h
  · rw [hs f hf hk] at hx
    cases hx

theorem assignLoop_sets {E : Env} {shape : Shape} {look : Str → Option Nat} {i : Nat}
    {val : Value} {x : Str × Str} (es : List (Str × Str)) (r : Record) (hnd : es.Nodup)
    (hmem : x ∈ es)
    (hset : ∀ r0, assignStep E shape look r0 x = .returned (.ok (r0.set i val)))
    (honly : ∀ y ∈ es, touchesWith look i y → y = x) (hlen : i < r.length)
    (hok : (assignLoop E shape look r es).1 = .returned none) :
    (assignLoop E shape look r es).2[i]? = some val := by
  induction es generalizing r with
  | nil => simp at hmem
  | cons y rest ih =>
    simp only [assignLoop] at hok ⊢
    obtain ⟨hy, hnd'⟩ := List.nodup_cons.1 hnd
    split
    · rename_i h1
      rw [h1] at hok
      cases hok
    · rename_i e1 h1
      rw [h1] at hok
      cases hok
    · rename_i r1 h1
      rw [h1] at hok
      by_cases hyx : y = x
      · subst hyx
        rw [hset r] at h1
        cases h1
        rw [assignLoop_frame rest _
          (fun z hz ht => hy (honly z (List.mem_cons_of_mem _ hz) ht ▸ hz))]
        simp [List.getElem?_set, hlen]
      · have hx : x ∈ rest := by
          rcases List.mem_cons.1 hmem with e | e
          · exact absurd e.symm hyx
          · exact e
        exact ih r1 hnd' hx (fun z hz => honly z (List.mem_cons_of_mem _ hz))
          (by rw [(assignStep_ok_inv h1).1]; exact hlen) hok

theorem assignLoop_perm_getElem? {E : Env} {shape : Shape} {look : Str → Option Nat}
    {es1 es2 : List (Str × Str)} (r : Record) (i : Nat) (hp : es1.Perm es2)
    (hnd : es1.Nodup)
    (hone : ∀ x ∈ es1, ∀ y ∈ es1, touchesWith look i x → touchesWith look i y → x = y)
    (h1 : (assignLoop E shape look r es1).1 = .returned none)
    (h2 : (assignLoop E shape look r es2).1 = .returned none) :
    (assignLoop E shape look r es1).2[i]? = (assignLoop E shape look r es2).2[i]? := by
  by_cases hset : ∃ x ∈ es1, ∃ val, touchesWith look i x ∧
      ∀ r0, assignStep E shape look r0 x = .returned (.ok (r0.set i val))
  · obtain ⟨x, hx, val, ht, hval⟩ := hset
    by_cases hlen : i < r.length
    · rw [assignLoop_sets es1 r hnd hx hval (fun y hy hty => hone y hy x hx hty ht) hlen h1,
        assignLoop_sets es2 r (hp.nodup_iff.1 hnd) (hp.mem_iff.1 hx) hval
          (fun y hy hty => hone y (hp.mem_iff.2 hy) x hx hty ht) hlen h2]
    · rw [List.getElem?_eq_none (by rw [assignLoop_length]; omega),
        List.getElem?_eq_none (by rw [assignLoop_length]; omega)]
  · have hframe : ∀ e ∈ es1, ∀ r0 r1, assignStep E shape look r0 e = .returned (.ok r1) →
        r1[i]? = r0[i]? := by
      intro e he r0 r1 h01
      rcases assignStep_cases E shape look e with hnoop | ⟨j, f, val, htj, -, -, -, -, hval⟩ |
        ⟨j, f, e', -, -, -, -, herr⟩ | ⟨j, f, -, -, -, -, hpan⟩
      · rw [hnoop r0] at h01
        cases h01
        rfl
      · rw [hval r0] at h01
        cases h01
        have hji : j ≠ i := by
          intro e'
          subst e'
          exact hset ⟨e, he, val, htj, hval⟩
        simp [List.getElem?_set, hji]
      · rw [herr r0] at h01
        cases h01
      · rw [hpan r0] at h01
        cases h01
    rw [assignLoop_frame_of es1 r hframe,
      assignLoop_frame_of es2 r (fun e he => hframe e (hp.mem_iff.2 he))]

theorem assignLoop_error_split {E : Env} {shape : Shape} {look : Str → Option Nat}
    (es : List (Str × Str)) (r r' : Record) (e : DecodeError)
    (h : assignLoop E shape look r es = (.returned (some e), r')) :
    ∃ pre bad post, es = pre ++ bad :: post ∧
      assignLoop E shape look r pre = (.returned none, r') ∧
      assignStep E shape look r' bad = .returned (.error e) := by
  induction es generalizing r with
  | nil => simp [assignLoop] at h
  | cons x rest ih =>
    simp only [assignLoop] at h
    split at h
    · simp at h
    · rename_i e1 h1
      simp only [Prod.mk.injEq, Outcome.returned.injEq, Option.some.injEq] at h
      obtain ⟨rfl, rfl⟩ := h
      exact ⟨[], x, rest, rfl, rfl, h1⟩
    · rename_i r1 h1
      obtain ⟨pre, bad, post, hes, hpre, hbad⟩ := ih r1 h
      refine ⟨x :: pre, bad, post, by rw [hes]; rfl, ?_, hbad⟩
      simp only [assignLoop, h1]
      exact hpre

theorem assignLoop_append {E : Env} {shape : Shape} {look : Str → Option Nat}
    (pre post : List (Str × Str)) (r r' : Record)
    (h : assignLoop E shape look r pre = (.returned none, r')) :
    assignLoop E shape look r (pre ++ post) = assignLoop E shape look r' post := by
  induction pre generalizing r with
  | nil =>
    simp only [assignLoop, Prod.mk.injEq, true_and] at h
    rw [h]
    rfl
  | cons x rest ih =>
    simp only [assignLoop, List.cons_append] at h ⊢
    split at h
    · simp at h
    · simp at h
    · rename_i r1 h1
      exact ih r1 h


theorem assignLoop_last_sets {E : Env} {shape : Shape} {look : Str → Option Nat} {i : Nat}
    {f : Field} (p1 : List (Str × Str)) (x : Str × Str) (p2 : List (Str × Str))
    (r r' : Record) (h : assignLoop E shape look r (p1 ++ x :: p2) = (.returned none, r'))
    (ht : touchesWith look i x) (hf : shape[i]? = some f) (hk : f.kind ≠ .other)
    (hno : ∀ y ∈ p2, ¬ touchesWith look i y) (hlen : i < r.length) :
    ∃ val, coerce? E f.kind x.2 = some val ∧ r'[i]? = some val := by
  induction p1 generalizing r with
  | nil =>
    simp only [List.nil_append, assignLoop] at h
    split at h
    · simp at h
    · simp at h
    · rename_i r1 h1
      obtain ⟨key, value⟩ := x
      rw [assignStep_found ht.1 ht.2 hf] at h1
      rcases setField_cases E f i value with ⟨ho, -⟩ | ⟨val, -, -, hv, hs⟩ | ⟨e, -, -, hs⟩ |
        ⟨-, -, -, hs⟩
      · exact absurd ho hk
      · rw [hs r] at h1
        cases h1
        refine ⟨val, hv, ?_⟩
        have hfr := @assignLoop_frame E shape look i p2 (r.set i val) hno
        rw [h] at hfr
        rw [hfr]
        simp [List.getElem?_set, hlen]
      · rw [hs r] at h1
        cases h1
      · rw [hs r] at h1
        cases h1
  | cons y rest ih =>
    simp only [List.cons_append, assignLoop] at h
    split at h
    · simp at h
    · simp at h
    · rename_i r1 h1
      exact ih r1 h (by rw [(assignStep_ok_inv h1).1]; exact hlen)

theorem assignStep_of_coercible {E : Env} {shape : Shape} {look : Str → Option Nat}
    (hs : Settable shape) (entry : Str × Str)
    (h : ∀ i f, look entry.1 = some i → shape[i]? = some f →
      absent entry.2 = false → coercible E f.kind entry.2 = true) (r : Record) :
    ∃ r', assignStep E shape look r entry = .returned (.ok r') := by
  rcases assignStep_cases E shape look entry with h0 | ⟨j, f, val, -, -, -, -, -, h1⟩ |
    ⟨j, f, e, ht, hf, -, hco, -⟩ | ⟨j, f, -, hf, hk, hx, -⟩
  · exact ⟨_, h0 r⟩
  · exact ⟨_, h1 r⟩
  · rw [h j f ht.2 hf ht.1] at hco
    cases hco
  · rw [hs f (List.getElem?_mem hf) hk] at hx
    cases hx

theorem assignStep_string {E : Env} {shape : Shape} {look : Str → Option Nat}
    {key value : Str} {i : Nat} {f : Field}
    (hab : absent value = false) (hi : look key = some i)
    (hf : shape[i]? = some f) (hk : f.kind = .string) (hx : f.exported = true) (r : Record) :
    assignStep E shape look r (key, value) = .returned (.ok (r.set i (.str value))) := by
  simp [assignStep, hab, hi, hf, setField, hk, hx]
/-! ## The collected map has one entry per key -/

theorem Map.keys_set {κ α : Type} [DecidableEq κ] (m : Map κ α) (k : κ) (v : α) :
    (Map.set m k v).map Prod.fst =
      if k ∈ m.map Prod.fst then m.map Prod.fst else m.map Prod.fst ++ [k] := by
  induction m with
  | nil => simp [Map.set]
  | cons x rest ih =>
    obtain ⟨k', v'⟩ := x
    by_cases hk : k' = k
    · subst hk
      simp [Map.set]
    · have hk' : ¬ k = k' := fun e => hk e.symm
      simp only [Map.set, hk, if_false, List.map_cons, ih, List.mem_cons, hk', false_or]
      split <;> simp

theorem Map.nodup_set {κ α : Type} [DecidableEq κ] {m : Map κ α} (k : κ) (v : α)
    (h : (m.map Prod.fst).Nodup) : ((Map.set m k v).map Prod.fst).Nodup := by
  rw [Map.keys_set]
  split
  · exact h
  · rename_i hk
    exact List.Nodup.append h (List.nodup_singleton k) (by simpa using hk)

theorem scanLine_nodup {st st' : Scan} {line : Str} (h : scanLine st line = .ok st')
    (hnd : (st.data.map Prod.fst).Nodup) : (st'.data.map Prod.fst).Nodup := by
  by_cases h0 : line = []
  · subst h0
    rw [scanLine_nil] at h
    cases h
    exact hnd
  · by_cases hc : ':' ∈ line
    · rw [scanLine_key h0 hc] at h
      cases h
      apply Map.nodup_set
      split
      · exact Map.nodup_set _ _ hnd
      · exact hnd
    · have hm : malformed line = true := by simp [malformed, h0, hc]
      rw [scanLine_malformed hm] at h
      cases h

theorem scanLines_nodup {lines : List Str} {st st' : Scan} (h : scanLines st lines = .ok st')
    (hnd : (st.data.map Prod.fst).Nodup) : (st'.data.map Prod.fst).Nodup := by
  induction lines generalizing st with
  | nil =>
    simp only [scanLines] at h
    cases h
    exact hnd
  | cons l ls ih =>
    simp only [scanLines] at h
    split at h
    · cases h
    · rename_i st1 h1
      exact ih h (scanLine_nodup h1 hnd)

theorem collect_nodup {dataStr : Str} {data : Map Str Str} (h : collect dataStr = .ok data) :
    (data.map Prod.fst).Nodup := by
  unfold collect at h
  split at h
  · cases h
  · rename_i st hst
    cases h
    exact scanLines_nodup hst (by simp)

theorem parseSingle_struct {E : Env} {dataStr : Str} {data : Map Str Str} (shape : Shape)
    (r : Record) (h : collect dataStr = .ok data) :
    parseSingle E dataStr (.struct shape r) =
      ((assignAll E shape r (E.rangeEntries data)).1,
        .struct shape (assignAll E shape r (E.rangeEntries data)).2) := by
  simp only [parseSingle, h]

/-- Claim C4: let the payload have no line without colon, let the value collected for key `k`
be the empty string or "Not set", let the lookup of `k` find the field at position `i`, and
let no other collected key be looked up to that field.  Then, for every prior value of the
record and every order of visiting the collected keys, the field at position `i` has after
the decode the value it had before, whatever its type and whether or not another key made
the decode fail or abort; and the iteration for `k` itself assigns nothing and reports no
error. -/
theorem absent_value_keeps_field (E : Env) (hE : E.Valid) (dataStr : Str) (data : Map Str Str)
    (shape : Shape) (r : Record) (k val : Str) (i : Nat)
    (hdata : collect dataStr = .ok data) (hmem : (k, val) ∈ data)
    (habs : val = [] ∨ val = "Not set".toList)
    (hfield : lookupField E shape k = some i)
    (hother : ∀ e ∈ data, e.1 ≠ k → lookupField E shape e.1 ≠ some i) :
    (∃ out r', parseSingle E dataStr (.struct shape r) = (out, .struct shape r') ∧
      r'[i]? = r[i]?) ∧
    ∀ r0, assignEntry E shape r0 (k, val) = .returned (.ok r0) := by
  have hab : absent val = true := by simpa [absent] using habs
  refine ⟨⟨_, _, parseSingle_struct shape r hdata, ?_⟩,
    fun r0 => assignStep_absent (k, val) hab r0⟩
  apply assignLoop_frame
  intro e he ht
  have he' : e ∈ data := (hE.1 data).mem_iff.1 he
  obtain ⟨k', v'⟩ := e
  by_cases hk : k' = k
  · subst hk
    have hv : v' = val := by
      have hnd := collect_nodup hdata
      by_contra hne
      have := List.inj_on_of_nodup_map hnd he' hmem rfl
      exact hne (Prod.mk.inj this).2
    subst hv
    have := ht.1
    simp only at this
    rw [hab] at this
    cases this
  · exact hother (k', v') he' hk ht.2

/-- Witness of `absent_value_keeps_field`: "status: Not set" decoded into a Ticket whose
Status is already "open" (with another key, `priority`, that is assigned). -/
theorem absent_value_keeps_field_witness :
    ∃ out r', parseSingle env1 "status: Not set\npriority: 3\n".toList
        (.struct Ticket (Ticket.zero.set 5 (.str "open".toList))) = (out, .struct Ticket r') ∧
      r'[5]? = (Ticket.zero.set 5 (.str "open".toList))[5]? :=
  (absent_value_keeps_field env1 ⟨fun m => List.reverse_perm m, fun m => List.reverse_perm m⟩
    "status: Not set\npriority: 3\n".toList
    [("status".toList, "Not set".toList), ("priority".toList, "3".toList)]
    Ticket (Ticket.zero.set 5 (.str "open".toList)) "status".toList "Not set".toList 5
    rfl (by decide) (Or.inr rfl) (by decide) (by decide)).1

/-- Claim C5, refuted as stated: a record type with an unexported string field `secret` and
an integer field `N`, and the payload "secret: x\nN: abc\n".  The payload has no line without
colon, the key `N` names the integer field and "abc" is not an integer; yet with the keys
visited in the order of their appearance `parseSingle` returns no error: setting the
unexported field aborts the program before `N` is reached. -/
theorem coercion_failure_behind_abort :
    collect "secret: x\nN: abc\n".toList =
      .ok [("secret".toList, "x".toList), ("N".toList, "abc".toList)] ∧
    lookupField env0 [fld "secret" .string, fld "N" .int] "N".toList = some 1 ∧
    atoi env0.intBits "abc".toList = none ∧
    env0.Valid ∧
    parseSingle env0 "secret: x\nN: abc\n".toList
        (.struct [fld "secret" .string, fld "N" .int] [.str [], .int 0]) =
      (.panicked, .struct [fld "secret" .string, fld "N" .int] [.str [], .int 0]) :=
  ⟨rfl, by decide, by decide, ⟨fun m => List.Perm.refl m, fun m => List.Perm.refl m⟩,
    by decide⟩

/-- Claim C5, amended: take a record type whose string, integer and timestamp fields are all
exported.  Let the payload have no line without colon, and let some collected key have a
present value (not empty, not "Not set") and be looked up to a timestamp field whose layout
rejects the value, or to an integer field for which `strconv.Atoi` rejects the value.  Then
`parseSingle` returns a coercion error and not success, in whichever order the collected keys
are visited. -/
theorem coercion_failure_is_error (E : Env) (hE : E.Valid) (dataStr : Str)
    (data : Map Str Str) (shape : Shape) (r : Record) (k val : Str) (i : Nat) (f : Field)
    (hs : Settable shape)
    (hdata : collect dataStr = .ok data) (hmem : (k, val) ∈ data)
    (hpres : val ≠ [] ∧ val ≠ "Not set".toList)
    (hfield : lookupField E shape k = some i) (hf : shape[i]? = some f)
    (hrej : (f.kind = .time ∧ E.parseTime val = none) ∨
      (f.kind = .int ∧ atoi E.intBits val = none)) :
    ∃ e r', parseSingle E dataStr (.struct shape r) = (.returned (some e), .struct shape r') ∧
      e.isCoercion = true := by
  have hns : val ≠ ['N', 'o', 't', ' ', 's', 'e', 't'] := hpres.2
  have hab : absent val = false := by simp [absent, hpres.1, hns]
  have hbad : ∃ e, assignEntry E shape r (k, val) = .returned (.error e) := by
    unfold assignEntry
    rw [assignStep_found hab hfield hf]
    rcases hrej with ⟨hk, hp⟩ | ⟨hk, hp⟩
    · exact ⟨.timeCoercion val, by simp [setField, hk, hp]⟩
    · exact ⟨.intCoercion val, by simp [setField, hk, hp]⟩
  obtain ⟨e, he⟩ := hbad
  have hout := @assignLoop_outcome E shape (lookupField E shape) (E.rangeEntries data) r
  rcases hout with hnone | ⟨e', he', hc⟩ | ⟨hp, -⟩
  · obtain ⟨r1, h1⟩ := (assignLoop_none_iff _ r).1 hnone (k, val)
      ((hE.1 data).mem_iff.2 hmem) r
    rw [show assignStep E shape (lookupField E shape) r (k, val) =
      assignEntry E shape r (k, val) from rfl, he] at h1
    cases h1
  · refine ⟨e', (assignAll E shape r (E.rangeEntries data)).2, ?_, hc⟩
    rw [parseSingle_struct shape r hdata]
    show (_, _) = _
    rw [show (assignAll E shape r (E.rangeEntries data)).1 = .returned (some e') from he']
  · exact absurd hp (assignLoop_settable hs _ r)

/-- Witness of `coercion_failure_is_error`: "created: tomorrow" decoded into a fresh Ticket,
the keys being visited in the reverse order of their appearance. -/
theorem coercion_failure_is_error_witness :
    ∃ e r', parseSingle env1 "created: tomorrow\nstatus: open\n".toList
        (.struct Ticket Ticket.zero) = (.returned (some e), .struct Ticket r') ∧
      e.isCoercion = true :=
  coercion_failure_is_error env1 ⟨fun m => List.reverse_perm m, fun m => List.reverse_perm m⟩
    "created: tomorrow\nstatus: open\n".toList
    [("created".toList, "tomorrow".toList), ("status".toList, "open".toList)]
    Ticket Ticket.zero "created".toList "tomorrow".toList 12 (fld "Created" .time)
    (by decide) rfl (by decide) (by decide) (by decide) (by decide) (Or.inl (by decide))

/-! ## What a failed decode leaves behind -/

theorem parseSingle_error_target (E : Env) (dataStr : Str) (v : Target) {e : DecodeError}
    (h : (parseSingle E dataStr v).1 = .returned (some e)) (hc : e.isCoercion = false) :
    (parseSingle E dataStr v).2 = v := by
  cases v with
  | struct shape r =>
    cases hd : collect dataStr with
    | error e0 => simp [parseSingle, hd]
    | ok data =>
      rw [parseSingle_struct shape r hd] at h
      rcases @assignLoop_outcome E shape (lookupField E shape) (E.rangeEntries data) r with
        h1 | ⟨e1, h1, hc1⟩ | ⟨h1, -⟩
      · rw [show (assignAll E shape r (E.rangeEntries data)).1 = .returned none from h1] at h
        cases h
      · rw [show (assignAll E shape r (E.rangeEntries data)).1 = .returned (some e1)
          from h1] at h
        cases h
        rw [hc] at hc1
        cases hc1
      · rw [show (assignAll E shape r (E.rangeEntries data)).1 = .panicked from h1] at h
        cases h
  | _ => rfl

theorem request_single_error_target (E : Env) (rt : RT) (path : Str) (params : Option Values)
    (v : Target) (code : Int) (err : RequestError)
    (h : (request E rt path params v false).1 = .returned (code, some err))
    (hc : ∀ c, err = .decode c → c.isCoercion = false) :
    (request E rt path params v false).2 = v := by
  unfold request at h ⊢
  split
  · rfl
  · rename_i resp hresp
    rw [hresp] at h
    simp only at h
    split
    · rfl
    · rename_i h401
      simp only [h401, if_false] at h
      split
      · rfl
      · rename_i h200
        simp only [h200, if_false] at h
        split
        · rfl
        · rename_i responseString hbody
          rw [hbody] at h
          simp only at h
          split
          · rename_i x a b c h3
            rw [h3] at h
            simp only at h
            split
            · rfl
            · rename_i hrt
              simp only [hrt, if_false] at h
              split
              · rename_i hv
                rw [if_pos hv] at h
                simp only [Bool.false_eq_true, if_false] at h ⊢
                cases hp : parseSingle E c v with
                | mk out v' =>
                  rw [hp] at h
                  cases out with
                  | panicked => simp at h
                  | returned perr =>
                    cases perr with
                    | none => simp at h
                    | some e =>
                      simp only [Outcome.returned.injEq, Prod.mk.injEq,
                        Option.some.injEq] at h
                      have he := hc e h.2.symm
                      have := parseSingle_error_target E c v (e := e) (by rw [hp]) he
                      rw [hp] at this
                      simpa using this
              · rfl
          · rfl

/-- Claim C6, refuted as stated: with the keys visited in the order of their appearance,
decoding "status: open\npriority: abc\n" into a fresh Ticket returns the integer coercion
error, and the Ticket is not the empty one: Status has been set to "open".  `GetTicket`
returns that partly filled Ticket together with the error. -/
theorem failed_decode_keeps_assignments :
    env0.Valid ∧
    parseSingle env0 "status: open\npriority: abc\n".toList (.struct Ticket Ticket.zero) =
      (.returned (some (.intCoercion "abc".toList)),
        .struct Ticket (Ticket.zero.set 5 (.str "open".toList))) ∧
    GetTicket env0
      ⟨"https://rt.example.com/REST/1.0/".toList, "user".toList, "password".toList,
        fun _ => some ⟨200,
          .complete "RT/4.0.7 200 Ok\n\nstatus: open\npriority: abc\n".toList⟩⟩ 1 =
      .returned (.struct Ticket (Ticket.zero.set 5 (.str "open".toList)),
        some (.decode (.intCoercion "abc".toList))) ∧
    Record.field Ticket (Ticket.zero.set 5 (.str "open".toList)) "Status".toList ≠
      Record.field Ticket Ticket.zero "Status".toList :=
  ⟨⟨fun m => List.Perm.refl m, fun m => List.Perm.refl m⟩, by decide, by decide, by decide⟩

/-- Claim C6, amended.  (1) When `parseSingle` returns an error that is not a coercion error
(an invalid target or a line without colon), the target is exactly as it was before the
call.  (2) When it returns a coercion error, the sequence of visited keys splits into the
keys before the failing one, the failing key and the keys after it: the record is left
exactly as the iterations for the keys before the failing one made it, all of which passed
without error, the error is the one the failing key produces on that record, and the keys
after it are not processed.  In particular a field looked up for a present value before the
failing key, and for no later key before it, holds the coerced new value.  (3) Whatever the
call returns, every field that is not the field looked up for a collected key with a present
value still has the value it had before the call.  (4) The record `GetTicket` returns
together with an error other than a coercion error is the empty Ticket. -/
theorem failed_decode_frame (E : Env) (hE : E.Valid) (dataStr : Str) :
    (∀ v e, (parseSingle E dataStr v).1 = .returned (some e) → e.isCoercion = false →
      (parseSingle E dataStr v).2 = v) ∧
    (∀ data shape r e r', collect dataStr = .ok data → r.length = shape.length →
      parseSingle E dataStr (.struct shape r) = (.returned (some e), .struct shape r') →
      ∃ pre bad post, E.rangeEntries data = pre ++ bad :: post ∧
        assignAll E shape r pre = (.returned none, r') ∧
        assignEntry E shape r' bad = .returned (.error e) ∧
        ∀ p1 x p2 i f, pre = p1 ++ x :: p2 → touches E shape i x → shape[i]? = some f →
          f.kind ≠ .other → (∀ y ∈ p2, ¬ touches E shape i y) →
          ∃ val, coerce? E f.kind x.2 = some val ∧ r'[i]? = some val) ∧
    (∀ data shape r i, collect dataStr = .ok data → (∀ x ∈ data, ¬ touches E shape i x) →
      ∃ out r', parseSingle E dataStr (.struct shape r) = (out, .struct shape r') ∧
        r'[i]? = r[i]?) ∧
    (∀ rt id t err, GetTicket E rt id = .returned (t, some err) →
      (∀ c, err = .decode c → c.isCoercion = false) → t = .struct Ticket Ticket.zero) := by
  refine ⟨fun v e h hc => parseSingle_error_target E dataStr v h hc, ?_, ?_, ?_⟩
  · intro data shape r e r' hd hlen hp
    rw [parseSingle_struct shape r hd] at hp
    have hp' : assignLoop E shape (lookupField E shape) r (E.rangeEntries data) =
        (.returned (some e), r') := by
      simp only [Prod.mk.injEq, Target.struct.injEq, true_and] at hp
      exact Prod.ext hp.1 hp.2
    obtain ⟨pre, bad, post, hes, hpre, hbad⟩ := assignLoop_error_split _ r r' e hp'
    refine ⟨pre, bad, post, hes, hpre, hbad, ?_⟩
    intro p1 x p2 i f hsplit ht hf hk hno
    subst hsplit
    exact assignLoop_last_sets p1 x p2 r r' hpre ht hf hk hno
      (by rw [hlen]; exact (List.getElem?_eq_some_iff.1 hf).1)
  · intro data shape r i hd hno
    refine ⟨_, _, parseSingle_struct shape r hd, ?_⟩
    apply assignLoop_frame
    intro x hx
    exact hno x ((hE.1 data).mem_iff.1 hx)
  · intro rt id t err hg hc
    unfold GetTicket at hg
    simp only at hg
    cases hr : request E rt ("ticket/".toList ++ itoa id ++ "/show".toList) none
        (Target.struct Ticket Ticket.zero) false with
    | mk out v' =>
      rw [hr] at hg
      cases out with
      | panicked => simp at hg
      | returned p =>
        obtain ⟨code, err'⟩ := p
        simp only [Outcome.returned.injEq, Prod.mk.injEq] at hg
        obtain ⟨rfl, rfl⟩ := hg
        have := request_single_error_target E rt
          ("ticket/".toList ++ itoa id ++ "/show".toList) none
          (Target.struct Ticket Ticket.zero) code err (by rw [hr]) hc
        rw [hr] at this
        exact this

/-- Witness of `failed_decode_frame`: for the payload "status: open\npriority: abc\n", whose
decode fails at `priority`, the key `status` was visited before the failing key and the
record left behind is the one its iteration made, with Status set to "open". -/
theorem failed_decode_frame_witness :
    ∃ pre bad post,
      env0.rangeEntries [("status".toList, "open".toList), ("priority".toList, "abc".toList)] =
        pre ++ bad :: post ∧
      assignAll env0 Ticket Ticket.zero pre =
        (.returned none, Ticket.zero.set 5 (.str "open".toList)) ∧
      assignEntry env0 Ticket (Ticket.zero.set 5 (.str "open".toList)) bad =
        .returned (.error (.intCoercion "abc".toList)) ∧
      ∀ p1 x p2 i f, pre = p1 ++ x :: p2 → touches env0 Ticket i x → Ticket[i]? = some f →
        f.kind ≠ .other → (∀ y ∈ p2, ¬ touches env0 Ticket i y) →
        ∃ val, coerce? env0 f.kind x.2 = some val ∧
          (Ticket.zero.set 5 (.str "open".toList))[i]? = some val :=
  (failed_decode_frame env0 ⟨fun m => List.Perm.refl m, fun m => List.Perm.refl m⟩
    "status: open\npriority: abc\n".toList).2.1
    [("status".toList, "open".toList), ("priority".toList, "abc".toList)]
    Ticket Ticket.zero (.intCoercion "abc".toList) (Ticket.zero.set 5 (.str "open".toList))
    rfl (by decide) (by decide)

/-! ## The lookup of a field -/

theorem equalFold_refl (E : Env) (a : Str) : equalFold E a a = true := by
  simp [equalFold]

theorem equalFold_trans_symm {E : Env} {a b k : Str} (h1 : equalFold E a k = true)
    (h2 : equalFold E b k = true) : equalFold E a b = true := by
  simp only [equalFold, decide_eq_true_eq] at *
  rw [h1, h2]

theorem countP_findIdx_of_unique {α : Type} (p : α → Bool) (l : List α) (i : Nat) (a : α)
    (hpw : l.Pairwise (fun x y => ¬ (p x = true ∧ p y = true))) (hi : l[i]? = some a)
    (hp : p a = true) : l.countP p = 1 ∧ l.findIdx p = i := by
  induction l generalizing i with
  | nil => simp at hi
  | cons x xs ih =>
    obtain ⟨hx, hxs⟩ := List.pairwise_cons.1 hpw
    cases i with
    | zero =>
      simp only [List.getElem?_cons_zero, Option.some.injEq] at hi
      subst hi
      have h0 : xs.countP p = 0 := by
        rw [List.countP_eq_zero]
        intro b hb hpb
        exact hx b hb ⟨hp, hpb⟩
      simp [List.countP_cons, h0, hp, List.findIdx_cons]
    | succ j =>
      simp only [List.getElem?_cons_succ] at hi
      have hmem : a ∈ xs := List.getElem?_mem hi
      have hnx : p x = false := by
        cases hpx : p x with
        | false => rfl
        | true => exact absurd ⟨hpx, hp⟩ (hx a hmem)
      obtain ⟨hc, hf⟩ := ih j hxs hi
      simp [List.countP_cons, hnx, hc, List.findIdx_cons, hf]

theorem lookupField_sound {E : Env} {shape : Shape} {key : Str} {i : Nat}
    (h : lookupField E shape key = some i) :
    ∃ f, shape[i]? = some f ∧ equalFold E f.name key = true := by
  unfold lookupField fieldByNameFunc at h
  split at h
  · rename_i hc
    simp only [Option.some.injEq] at h
    have hpos : 0 < shape.countP (fun f : Field => equalFold E f.name key) := by
      rw [hc]
      exact Nat.one_pos
    obtain ⟨a, ha, hpa⟩ := List.countP_pos_iff.1 hpos
    have hlt : shape.findIdx (fun f : Field => equalFold E f.name key) < shape.length :=
      List.findIdx_lt_length.2 ⟨a, ha, hpa⟩
    subst h
    refine ⟨shape[shape.findIdx (fun f : Field => equalFold E f.name key)], ?_, ?_⟩
    · exact List.getElem?_eq_getElem hlt
    · exact List.findIdx_getElem (p := fun f : Field => equalFold E f.name key) (w := hlt)
  · cases h

theorem lookupField_of_distinct {E : Env} {shape : Shape} {key : Str} {i : Nat} {f : Field}
    (hd : DistinctNames E shape) (hi : shape[i]? = some f)
    (hf : equalFold E f.name key = true) : lookupField E shape key = some i := by
  have hpw : shape.Pairwise
      (fun x y => ¬ (equalFold E x.name key = true ∧ equalFold E y.name key = true)) := by
    refine List.Pairwise.imp ?_ hd
    intro a b hab hboth
    rw [equalFold_trans_symm hboth.1 hboth.2] at hab
    cases hab
  obtain ⟨hc, hx⟩ := countP_findIdx_of_unique (fun f => equalFold E f.name key) shape i f hpw
    hi hf
  simp [lookupField, fieldByNameFunc, hc, hx]

/-! ## Payloads of plain key lines -/

theorem Map.set_of_not_mem {κ α : Type} [DecidableEq κ] (m : Map κ α) (k : κ) (v : α)
    (h : k ∉ m.map Prod.fst) : Map.set m k v = m ++ [(k, v)] := by
  induction m with
  | nil => rfl
  | cons x rest ih =>
    obtain ⟨k', v'⟩ := x
    simp only [List.map_cons, List.mem_cons, not_or] at h
    have hk : ¬ k' = k := fun e => h.1 e.symm
    simp [Map.set, hk, ih h.2]

theorem scanLines_plain (lines : List Str) (st : Scan)
    (hform : ∀ l ∈ lines, l ≠ [] → ':' ∈ l ∧ l.head? ≠ some ' ')
    (hnew : ∀ l ∈ lines, l ≠ [] → lineKey l ∉ st.data.map Prod.fst)
    (hpw : (lines.filter (fun l => l ≠ [])).Pairwise (fun a b => lineKey a ≠ lineKey b)) :
    ∃ lk, scanLines st lines = .ok
      { data := st.data ++ (lines.filter (fun l => l ≠ [])).map
          (fun l => (lineKey l, lineValue l)),
        lastKey := lk } := by
  induction lines generalizing st with
  | nil => exact ⟨st.lastKey, by simp [scanLines]⟩
  | cons l ls ih =>
    by_cases h0 : l = []
    · subst h0
      simp only [scanLines, scanLine_nil]
      have := ih st (fun l hl => hform l (List.mem_cons_of_mem _ hl))
        (fun l hl => hnew l (List.mem_cons_of_mem _ hl)) (by simpa using hpw)
      simpa using this
    · obtain ⟨hc, hsp⟩ := hform l (List.mem_cons_self _ _) h0
      have hk := hnew l (List.mem_cons_self _ _) h0
      have hfilter : (l :: ls).filter (fun l => l ≠ []) =
          l :: ls.filter (fun l => l ≠ []) := by simp [List.filter_cons, h0]
      rw [hfilter] at hpw ⊢
      obtain ⟨hl, hpw'⟩ := List.pairwise_cons.1 hpw
      simp only [scanLines, scanLine_key h0 hc, hsp, false_and, if_false]
      rw [Map.set_of_not_mem _ _ _ hk]
      have hnew' : ∀ l' ∈ ls, l' ≠ [] →
          lineKey l' ∉ (st.data ++ [(lineKey l, stripValue (lineRest l))]).map Prod.fst := by
        intro l' hl' h0'
        simp only [List.map_append, List.map_cons, List.map_nil, List.mem_append,
          List.mem_singleton, not_or]
        refine ⟨hnew l' (List.mem_cons_of_mem _ hl') h0', ?_⟩
        intro e
        exact hl l' (by simp [hl', h0']) e.symm
      obtain ⟨lk, h⟩ := ih
        { data := st.data ++ [(lineKey l, stripValue (lineRest l))], lastKey := lineKey l }
        (fun l hl => hform l (List.mem_cons_of_mem _ hl)) hnew' hpw'
      exact ⟨lk, by simpa [lineValue] using h⟩

theorem collect_plain {E : Env} {dataStr : Str} (h : PlainPayload E dataStr) :
    collect dataStr = .ok ((keyLines dataStr).map (fun l => (lineKey l, lineValue l))) := by
  have hpw : (keyLines dataStr).Pairwise (fun a b => lineKey a ≠ lineKey b) := by
    refine List.Pairwise.imp ?_ h.2
    intro a b hab e
    rw [e, equalFold_refl] at hab
    cases hab
  obtain ⟨lk, hs⟩ := scanLines_plain (split '\n' dataStr) { data := [], lastKey := [] }
    (fun l hl h0 => h.1 l (by simp [keyLines, hl, h0])) (by simp) hpw
  simp only [collect, hs, List.nil_append]
  rfl

theorem equalFold_of_common {E : Env} {a k1 k2 : Str} (h1 : equalFold E a k1 = true)
    (h2 : equalFold E a k2 = true) : equalFold E k1 k2 = true := by
  simp only [equalFold, decide_eq_true_eq] at *
  rw [← h1, ← h2]

theorem decode_plain {E : Env} (hE : E.Valid) {dataStr : Str} {shape : Shape}
    (hd : DistinctNames E shape) (hs : Settable shape) (hp : PlainPayload E dataStr)
    (hco : ∀ l ∈ keyLines dataStr, ∀ f ∈ shape, equalFold E f.name (lineKey l) = true →
      absent (lineValue l) = false → coercible E f.kind (lineValue l) = true) :
    ∃ r', parseSingle E dataStr (.struct shape shape.zero) =
        (.returned none, .struct shape r') ∧
      r'.length = shape.length ∧
      (∀ l ∈ keyLines dataStr, ∀ (i : Nat) (f : Field), shape[i]? = some f →
        f.kind = .string →
        equalFold E f.name (lineKey l) = true → absent (lineValue l) = false →
        r'[i]? = some (.str (lineValue l))) ∧
      (∀ (i : Nat) (f : Field), shape[i]? = some f →
        (∀ l ∈ keyLines dataStr, equalFold E f.name (lineKey l) = false) →
        r'[i]? = some f.kind.zero) := by
  have hdata := collect_plain hp
  have hperm := hE.1 ((keyLines dataStr).map (fun l => (lineKey l, lineValue l)))
  have hmem : ∀ x, x ∈ E.rangeEntries ((keyLines dataStr).map
      (fun l => (lineKey l, lineValue l))) → ∃ l ∈ keyLines dataStr,
        x = (lineKey l, lineValue l) := by
    intro x hx
    obtain ⟨l, hl, e⟩ := List.mem_map.1 (hperm.mem_iff.1 hx)
    exact ⟨l, hl, e.symm⟩
  have hnd : (E.rangeEntries ((keyLines dataStr).map
      (fun l => (lineKey l, lineValue l)))).Nodup :=
    hperm.nodup_iff.2 (List.Nodup.of_map Prod.fst (collect_nodup hdata))
  have hok : (assignAll E shape shape.zero (E.rangeEntries ((keyLines dataStr).map
      (fun l => (lineKey l, lineValue l))))).1 = .returned none := by
    apply (assignLoop_none_iff _ _).2
    intro x hx r0
    obtain ⟨l, hl, rfl⟩ := hmem x hx
    apply assignStep_of_coercible hs
    intro i f hi hf hab
    obtain ⟨f', hf', hfold⟩ := lookupField_sound hi
    rw [hf] at hf'
    cases hf'
    exact hco l hl f (List.getElem?_mem hf) hfold hab
  refine ⟨(assignAll E shape shape.zero (E.rangeEntries ((keyLines dataStr).map
      (fun l => (lineKey l, lineValue l))))).2, ?_, ?_, ?_, ?_⟩
  · rw [parseSingle_struct shape shape.zero hdata]
    show (_, _) = _
    rw [hok]
  · show (assignLoop _ _ _ _ _).2.length = _
    rw [assignLoop_length, Shape.zero, List.length_map]
  · intro l hl i f hf hk hfold hab
    have hi := lookupField_of_distinct hd hf hfold
    have hx : f.exported = true := hs f (List.getElem?_mem hf) (by rw [hk]; simp)
    apply assignLoop_sets _ _ hnd
      (hperm.mem_iff.2 (List.mem_map.2 ⟨l, hl, rfl⟩))
      (fun r0 => assignStep_string hab hi hf hk hx r0)
    · intro y hy ht
      obtain ⟨l', hl', rfl⟩ := hmem y hy
      obtain ⟨f', hf', hfold'⟩ := lookupField_sound ht.2
      rw [hf] at hf'
      cases hf'
      by_cases hll : l = l'
      · rw [hll]
      · have hsym : Symmetric (fun a b : Str =>
            equalFold E (lineKey a) (lineKey b) = false) := by
          intro a b h
          simp only [equalFold, decide_eq_false_iff_not] at h ⊢
          exact fun e => h e.symm
        have hne := hp.2.forall hsym hl hl' hll
        rw [equalFold_of_common hfold hfold'] at hne
        cases hne
    · rw [Shape.zero, List.length_map]
      exact (List.getElem?_eq_some.1 hf).1
    · exact hok
  · intro i f hf hno
    show (assignLoop _ _ _ _ _).2[i]? = _
    rw [assignLoop_frame]
    · simp [Shape.zero, hf]
    · intro x hx ht
      obtain ⟨l, hl, rfl⟩ := hmem x hx
      obtain ⟨f', hf', hfold'⟩ := lookupField_sound ht.2
      rw [hf] at hf'
      cases hf'
      rw [hno l hl] at hfold'
      cases hfold'

/-- Claim C1, refuted as stated.  The payload "priority: abc\n" is made of one key line that
does not begin with a space, yet decoding it into a fresh Ticket fails: `priority` names the
integer field Priority and "abc" is not an integer.  For the record type with the two
string fields `Name` and `NAME`, the payload "name: x\n" decodes with success but sets
neither field, although both names equal the key ignoring case: the lookup finds no field
when several match.  And for the record type with the one unexported string field `secret`,
decoding "secret: x\n" returns nothing: setting the field aborts the program. -/
theorem plain_payload_may_fail :
    PlainPayload env0 "priority: abc\n".toList ∧
    parseSingle env0 "priority: abc\n".toList (.struct Ticket Ticket.zero) =
      (.returned (some (.intCoercion "abc".toList)), .struct Ticket Ticket.zero) ∧
    PlainPayload env0 "name: x\n".toList ∧
    parseSingle env0 "name: x\n".toList
        (.struct [fld "Name" .string, fld "NAME" .string] [.str [], .str []]) =
      (.returned none,
        .struct [fld "Name" .string, fld "NAME" .string] [.str [], .str []]) ∧
    PlainPayload env0 "secret: x\n".toList ∧
    parseSingle env0 "secret: x\n".toList (.struct [fld "secret" .string] [.str []]) =
      (.panicked, .struct [fld "secret" .string] [.str []]) := by
  refine ⟨by decide, by decide, by decide, by decide, by decide, by decide⟩

/-- Claim C1, amended: take a record type whose field names are pairwise distinct ignoring
case and whose string, integer and timestamp fields are all exported, and a payload whose
non-empty lines each contain a colon, none beginning with a space, with keys pairwise
distinct ignoring case, in which every present value (not empty, not "Not set") whose key
equals, ignoring case, the name of a field is accepted by the coercion of that field's type
(always so for a string field).  Then `parseSingle` into a fresh record returns with
success, in every order of visiting the keys; every string field whose name equals a key
ignoring case holds the text after the first colon of that line, less one leading space,
when that text is present; and every field named by no key has its zero value. -/
theorem plain_payload_decodes (E : Env) (hE : E.Valid) (dataStr : Str) (shape : Shape)
    (hd : DistinctNames E shape) (hs : Settable shape) (hp : PlainPayload E dataStr)
    (hco : ∀ l ∈ keyLines dataStr, ∀ f ∈ shape, equalFold E f.name (lineKey l) = true →
      absent (lineValue l) = false → coercible E f.kind (lineValue l) = true) :
    ∃ r', parseSingle E dataStr (.struct shape shape.zero) =
        (.returned none, .struct shape r') ∧
      (∀ l ∈ keyLines dataStr, ∀ (i : Nat) (f : Field), shape[i]? = some f →
        f.kind = .string → equalFold E f.name (lineKey l) = true →
        lineValue l ≠ [] → lineValue l ≠ "Not set".toList →
        r'[i]? = some (.str (lineValue l))) ∧
      (∀ (i : Nat) (f : Field), shape[i]? = some f →
        (∀ l ∈ keyLines dataStr, equalFold E f.name (lineKey l) = false) →
        r'[i]? = some f.kind.zero) := by
  obtain ⟨r', h1, -, h2, h3⟩ := decode_plain hE hd hs hp hco
  refine ⟨r', h1, ?_, h3⟩
  intro l hl i f hf hk hfold hne hns
  have hns' : lineValue l ≠ ['N', 'o', 't', ' ', 's', 'e', 't'] := hns
  exact h2 l hl i f hf hk hfold (by simp [absent, hne, hns'])

/-- Witness of `plain_payload_decodes`: "id: 7\nstatus: open\n" decoded into a fresh Ticket
gives ID = "7" and Status = "open", and leaves Queue empty. -/
theorem plain_payload_decodes_witness :
    ∃ r', parseSingle env0 "id: 7\nstatus: open\n".toList (.struct Ticket Ticket.zero) =
        (.returned none, .struct Ticket r') ∧
      r'[0]? = some (.str "7".toList) ∧ r'[5]? = some (.str "open".toList) ∧
      r'[1]? = some (.str []) := by
  obtain ⟨r', h1, h2, h3⟩ := plain_payload_decodes env0
    ⟨fun m => List.Perm.refl m, fun m => List.Perm.refl m⟩ "id: 7\nstatus: open\n".toList
    Ticket (by decide) (by decide) (by decide) (by decide)
  exact ⟨r', h1,
    h2 "id: 7".toList (by decide) 0 _ rfl rfl (by decide) (by decide) (by decide),
    h2 "status: open".toList (by decide) 5 _ rfl rfl (by decide) (by decide) (by decide),
    h3 1 _ rfl (by decide)⟩

/-! ## Round trip of string records -/

theorem takeWhile_append_sep {sep : Char} {l : Str} (rest : Str) (h : sep ∉ l) :
    (l ++ sep :: rest).takeWhile (fun c => c != sep) = l := by
  induction l with
  | nil => simp [List.takeWhile_cons]
  | cons c cs ih =>
    have hc : c ≠ sep := fun e => h (e ▸ List.mem_cons_self _ _)
    have hb : (c != sep) = true := by simpa using hc
    simp only [List.cons_append, List.takeWhile_cons, hb, if_true,
      ih (fun e => h (List.mem_cons_of_mem _ e))]

theorem dropWhile_append_sep {sep : Char} {l : Str} (rest : Str) (h : sep ∉ l) :
    (l ++ sep :: rest).dropWhile (fun c => c != sep) = sep :: rest := by
  induction l with
  | nil => simp [List.dropWhile_cons]
  | cons c cs ih =>
    have hc : c ≠ sep := fun e => h (e ▸ List.mem_cons_self _ _)
    have hb : (c != sep) = true := by simpa using hc
    simp only [List.cons_append, List.dropWhile_cons, hb, if_true,
      ih (fun e => h (List.mem_cons_of_mem _ e))]

theorem split_append_sep {sep : Char} {l : Str} (rest : Str) (h : sep ∉ l) :
    split sep (l ++ sep :: rest) = l :: split sep rest := by
  rw [split_of_mem (by simp), takeWhile_append_sep rest h, dropWhile_append_sep rest h]
  simp

theorem split_flatMap_lines (lines : List Str) (h : ∀ l ∈ lines, '\n' ∉ l) :
    split '\n' (lines.flatMap (fun l => l ++ ['\n'])) = lines ++ [[]] := by
  induction lines with
  | nil => rfl
  | cons l ls ih =>
    rw [List.flatMap_cons, List.append_assoc, List.singleton_append,
      split_append_sep _ (h l (List.mem_cons_self _ _)),
      ih (fun x hx => h x (List.mem_cons_of_mem _ hx))]
    rfl

theorem lineKey_render {name : Str} (v : Str) (h : ':' ∉ name) :
    lineKey (name ++ ':' :: ' ' :: v) = name := by
  simp only [lineKey]
  exact takeWhile_append_sep _ h

theorem lineValue_render {name : Str} (v : Str) (h : ':' ∉ name) :
    lineValue (name ++ ':' :: ' ' :: v) = v := by
  simp only [lineValue, lineRest]
  rw [dropWhile_append_sep _ h]
  simp [stripValue]

theorem mem_renderLines {shape : Shape} {vals : List Str} {l : Str}
    (h : l ∈ renderLines shape vals) :
    ∃ (i : Nat) (f : Field) (v : Str), shape[i]? = some f ∧ vals[i]? = some v ∧ v ≠ [] ∧
      l = f.name ++ ':' :: ' ' :: v := by
  induction shape generalizing vals with
  | nil => simp [renderLines] at h
  | cons f shape ih =>
    cases vals with
    | nil => simp [renderLines] at h
    | cons v vals =>
      simp only [renderLines] at h
      by_cases hv : v = []
      · simp only [hv, if_true] at h
        obtain ⟨i, f', v', h1, h2, h3, h4⟩ := ih h
        exact ⟨i + 1, f', v', by simpa using h1, by simpa using h2, h3, h4⟩
      · simp only [hv, if_false, List.mem_cons] at h
        rcases h with h | h
        · exact ⟨0, f, v, by simp, by simp, hv, h⟩
        · obtain ⟨i, f', v', h1, h2, h3, h4⟩ := ih h
          exact ⟨i + 1, f', v', by simpa using h1, by simpa using h2, h3, h4⟩

theorem renderLines_mem {shape : Shape} {vals : List Str} {i : Nat} {f : Field} {v : Str}
    (hf : shape[i]? = some f) (hv : vals[i]? = some v) (hne : v ≠ []) :
    f.name ++ ':' :: ' ' :: v ∈ renderLines shape vals := by
  induction shape generalizing vals i with
  | nil => simp at hf
  | cons g shape ih =>
    cases vals with
    | nil => simp at hv
    | cons w vals =>
      cases i with
      | zero =>
        simp only [List.getElem?_cons_zero, Option.some.injEq] at hf hv
        subst hf hv
        simp [renderLines, hne]
      | succ j =>
        simp only [List.getElem?_cons_succ] at hf hv
        have := ih hf hv
        simp only [renderLines]
        split
        · exact this
        · exact List.mem_cons_of_mem _ this

theorem renderLines_pairwise {E : Env} {shape : Shape} (vals : List Str)
    (hd : DistinctNames E shape) (hn : ValidNames shape) :
    (renderLines shape vals).Pairwise
      (fun a b => equalFold E (lineKey a) (lineKey b) = false) := by
  induction shape generalizing vals with
  | nil => simp [renderLines]
  | cons f shape ih =>
    obtain ⟨hf, hd'⟩ := List.pairwise_cons.1 hd
    have hn' : ValidNames shape := fun g hg => hn g (List.mem_cons_of_mem _ hg)
    cases vals with
    | nil => simp [renderLines]
    | cons v vals =>
      simp only [renderLines]
      split
      · exact ih vals hd' hn'
      · refine List.pairwise_cons.2 ⟨?_, ih vals hd' hn'⟩
        intro b hb
        obtain ⟨i, g, w, h1, -, -, rfl⟩ := mem_renderLines hb
        have hg : g ∈ shape := List.getElem?_mem h1
        rw [lineKey_render v (hn f (List.mem_cons_self _ _)).1, lineKey_render w (hn' g hg).1]
        exact hf g hg

theorem keyLines_serialize {shape : Shape} (vals : List Str) (hn : ValidNames shape)
    (hv : ∀ v ∈ vals, '\n' ∉ v) : keyLines (serialize shape vals) = renderLines shape vals := by
  have hnl : ∀ l ∈ renderLines shape vals, '\n' ∉ l := by
    intro l hl
    obtain ⟨i, f, v, h1, h2, -, rfl⟩ := mem_renderLines hl
    have h3 := (hn f (List.getElem?_mem h1)).2.1
    have h4 := hv v (List.getElem?_mem h2)
    simp [h3, h4]
  have hne : ∀ l ∈ renderLines shape vals, l ≠ [] := by
    intro l hl
    obtain ⟨i, f, v, -, -, -, rfl⟩ := mem_renderLines hl
    simp
  unfold keyLines serialize
  rw [split_flatMap_lines _ hnl, List.filter_append]
  have : (renderLines shape vals).filter (fun l => decide (l ≠ [])) = renderLines shape vals :=
    List.filter_eq_self.2 (fun l hl => by simpa using hne l hl)
  rw [this]
  simp

theorem plainPayload_serialize {E : Env} {shape : Shape} (vals : List Str)
    (hd : DistinctNames E shape) (hn : ValidNames shape) (hv : ∀ v ∈ vals, '\n' ∉ v) :
    PlainPayload E (serialize shape vals) := by
  unfold PlainPayload
  rw [keyLines_serialize vals hn hv]
  refine ⟨?_, renderLines_pairwise vals hd hn⟩
  intro l hl
  obtain ⟨i, f, v, h1, -, -, rfl⟩ := mem_renderLines hl
  refine ⟨by simp, ?_⟩
  have h3 := (hn f (List.getElem?_mem h1)).2.2
  cases hname : f.name with
  | nil => simp
  | cons c cs =>
    rw [hname] at h3
    simpa using h3

/-- Claim C8, refuted as stated, on the record type TicketCustomFieldHistory (three string
fields).  A field whose value is "Not set" is written as "New: Not set" and decoded as
absent: the decode succeeds and New is empty.  A field whose value contains a newline is
written on two lines and the second has no colon: the decode fails.  And for a record type
with the string fields `Name` and `NAME`, neither field is restored, the lookup finding no
field when two names equal the key ignoring case.  And for a record type with the unexported
string field `secret` the decode returns nothing: setting the field aborts the program. -/
theorem string_round_trip_may_fail :
    parseSingle env0 (serialize TicketCustomFieldHistory [[], [], "Not set".toList])
        (.struct TicketCustomFieldHistory TicketCustomFieldHistory.zero) =
      (.returned none, .struct TicketCustomFieldHistory [.str [], .str [], .str []]) ∧
    parseSingle env0 (serialize TicketCustomFieldHistory [[], "a\nb".toList, []])
        (.struct TicketCustomFieldHistory TicketCustomFieldHistory.zero) =
      (.returned (some (.malformedLine "b".toList)),
        .struct TicketCustomFieldHistory [.str [], .str [], .str []]) ∧
    parseSingle env0 (serialize [fld "Name" .string, fld "NAME" .string]
          ["a".toList, "b".toList])
        (.struct [fld "Name" .string, fld "NAME" .string] [.str [], .str []]) =
      (.returned none,
        .struct [fld "Name" .string, fld "NAME" .string] [.str [], .str []]) ∧
    parseSingle env0 (serialize [fld "secret" .string] ["x".toList])
        (.struct [fld "secret" .string] [.str []]) =
      (.panicked, .struct [fld "secret" .string] [.str []]) := by
  refine ⟨by decide, by decide, by decide, by decide⟩

/-- Claim C8, amended: take a record type whose fields are all exported strings, with field
names pairwise distinct ignoring case, and a record of that type none of whose values
contains a newline or is "Not set".  Writing one line "<field name>: <value>" for each field
with a non-empty value and decoding that payload with `parseSingle` into a fresh record of
the same type returns with success, in every order of visiting the keys, and yields the
original record: every set field has its original value and every unset field is empty. -/
theorem string_round_trip (E : Env) (hE : E.Valid) (shape : Shape) (vals : List Str)
    (hstr : ∀ f ∈ shape, f.kind = .string) (hexp : ∀ f ∈ shape, f.exported = true)
    (hd : DistinctNames E shape)
    (hn : ValidNames shape) (hlen : vals.length = shape.length)
    (hv : ∀ v ∈ vals, '\n' ∉ v ∧ v ≠ "Not set".toList) :
    parseSingle E (serialize shape vals) (.struct shape shape.zero) =
      (.returned none, .struct shape (vals.map .str)) := by
  have hnl : ∀ v ∈ vals, '\n' ∉ v := fun v h => (hv v h).1
  have hkl := keyLines_serialize vals hn hnl
  obtain ⟨r', h1, hlen', h2, h3⟩ := decode_plain hE hd
    (fun f hf _ => hexp f hf) (plainPayload_serialize vals hd hn hnl)
    (by
      intro l _ f hf _ _
      simp [coercible, hstr f hf])
  rw [h1]
  congr 2
  apply List.ext_getElem?
  intro i
  by_cases hi : i < shape.length
  · obtain ⟨f, hf⟩ : ∃ f, shape[i]? = some f := ⟨shape[i], List.getElem?_eq_getElem hi⟩
    obtain ⟨v, hvi⟩ : ∃ v, vals[i]? = some v :=
      ⟨vals[i], List.getElem?_eq_getElem (by omega)⟩
    rw [List.getElem?_map, hvi, Option.map_some']
    have hfn := (hn f (List.getElem?_mem hf)).1
    by_cases hve : v = []
    · rw [h3 i f hf, hstr f (List.getElem?_mem hf), hve]
      · rfl
      · intro l hl
        rw [hkl] at hl
        obtain ⟨j, g, w, hg, hw, hwne, rfl⟩ := mem_renderLines hl
        rw [lineKey_render w (hn g (List.getElem?_mem hg)).1]
        have hij : i ≠ j := by
          intro e
          rw [← e, hvi] at hw
          cases hw
          exact hwne hve
        obtain ⟨hi', hfi⟩ := List.getElem?_eq_some.1 hf
        obtain ⟨hj', hgj⟩ := List.getElem?_eq_some.1 hg
        have hpw := List.pairwise_iff_getElem.1 hd
        rcases Nat.lt_or_gt_of_ne hij with hlt | hgt
        · have := hpw i j hi' hj' hlt
          rwa [hfi, hgj] at this
        · have := hpw j i hj' hi' hgt
          rw [hfi, hgj] at this
          simp only [equalFold, decide_eq_false_iff_not] at this ⊢
          exact fun e => this e.symm
    · have hmem := renderLines_mem hf hvi hve
      rw [← hkl] at hmem
      have := h2 _ hmem i f hf (hstr f (List.getElem?_mem hf))
        (by rw [lineKey_render v hfn]; exact equalFold_refl E _)
        (by
          rw [lineValue_render v hfn]
          have hns : v ≠ ['N', 'o', 't', ' ', 's', 'e', 't'] := (hv v (List.getElem?_mem hvi)).2
          simp [absent, hve, hns])
      rw [this, lineValue_render v hfn]
  · rw [List.getElem?_eq_none (by omega), List.getElem?_eq_none (by simp; omega)]

/-- Witness of `string_round_trip`: a TicketCustomFieldHistory with Field = "Status",
Old unset and New = " re: opened", decoded with the keys visited in reverse order. -/
theorem string_round_trip_witness :
    parseSingle env1
        (serialize TicketCustomFieldHistory ["Status".toList, [], " re: opened".toList])
        (.struct TicketCustomFieldHistory TicketCustomFieldHistory.zero) =
      (.returned none, .struct TicketCustomFieldHistory
        (["Status".toList, [], " re: opened".toList].map .str)) :=
  string_round_trip env1 ⟨fun m => List.reverse_perm m, fun m => List.reverse_perm m⟩
    TicketCustomFieldHistory ["Status".toList, [], " re: opened".toList]
    (by decide) (by decide) (by decide) (by decide) rfl (by decide)

/-! ## Fields the decoder never assigns -/

theorem assignEntry_other {E : Env} {shape : Shape} {i : Nat} {f : Field} {k : Str}
    (hf : shape[i]? = some f) (hk : f.kind = .other) (hi : lookupField E shape k = some i)
    (v : Str) (r0 : Record) : assignEntry E shape r0 (k, v) = .returned (.ok r0) := by
  simp only [assignEntry, assignStep]
  split
  · rfl
  · simp [hi, hf, setField, hk]

theorem parseSingle_other_kind {E : Env} (dataStr : Str) {shape : Shape} (r : Record)
    {i : Nat} {f : Field} (hf : shape[i]? = some f) (hk : f.kind = .other) :
    ∃ out r', parseSingle E dataStr (.struct shape r) = (out, .struct shape r') ∧
      r'[i]? = r[i]? := by
  cases hd : collect dataStr with
  | error e => exact ⟨.returned (some e), r, by simp [parseSingle, hd], rfl⟩
  | ok data =>
    refine ⟨_, _, parseSingle_struct shape r hd, ?_⟩
    apply assignLoop_frame_of
    intro e _ r0 r1 h1
    by_cases ht : touches E shape i e
    · obtain ⟨k, v⟩ := e
      rw [show assignStep E shape (lookupField E shape) r0 (k, v) =
        assignEntry E shape r0 (k, v) from rfl, assignEntry_other hf hk ht.2 v r0] at h1
      cases h1
      rfl
    · exact (assignStep_ok_inv h1).2 i ht

/-- Claim C20: let the field at position `i` of a record type have a type that is neither
string, int nor time.Time.  Then for every payload and every prior value of the record the
field has after `parseSingle` the value it had before, whether the decode succeeds, fails or
aborts; a key that is looked up to that field assigns nothing and reports no error, whatever
its value; and after a decode into a fresh record the field has its zero value. -/
theorem other_kind_field_untouched (E : Env) (dataStr : Str) (shape : Shape) (r : Record)
    (i : Nat) (f : Field) (hf : shape[i]? = some f) (hk : f.kind = .other) :
    (∃ out r', parseSingle E dataStr (.struct shape r) = (out, .struct shape r') ∧
      r'[i]? = r[i]?) ∧
    (∀ k v r0, lookupField E shape k = some i →
      assignEntry E shape r0 (k, v) = .returned (.ok r0)) ∧
    (∃ out r', parseSingle E dataStr (.struct shape shape.zero) = (out, .struct shape r') ∧
      r'[i]? = some f.kind.zero) := by
  refine ⟨parseSingle_other_kind dataStr r hf hk,
    fun k v r0 hi => assignEntry_other hf hk hi v r0, ?_⟩
  obtain ⟨out, r', h1, h2⟩ := parseSingle_other_kind (E := E) dataStr shape.zero hf hk
  refine ⟨out, r', h1, ?_⟩
  rw [h2]
  simp [Shape.zero, hf]

/-- Witness of `other_kind_field_untouched`: the boolean IsPrivate of TicketComment
(position 4) under the payload "isprivate: true\ncontent: x\n". -/
theorem other_kind_field_untouched_witness :
    ∃ out r', parseSingle env0 "isprivate: true\ncontent: x\n".toList
        (.struct TicketComment TicketComment.zero) = (out, .struct TicketComment r') ∧
      r'[4]? = TicketComment.zero[4]? :=
  (other_kind_field_untouched env0 "isprivate: true\ncontent: x\n".toList TicketComment
    TicketComment.zero 4 (fld "IsPrivate" .other) rfl rfl).1

/-! ## Empty lines -/

theorem scanLines_filter (lines : List Str) (st : Scan) :
    scanLines st (lines.filter (fun l => l ≠ [])) = scanLines st lines := by
  induction lines generalizing st with
  | nil => rfl
  | cons l ls ih =>
    by_cases h0 : l = []
    · subst h0
      simp only [scanLines, scanLine_nil]
      simpa using ih st
    · have hfilter : (l :: ls).filter (fun l => l ≠ []) =
          l :: ls.filter (fun l => l ≠ []) := by simp [List.filter_cons, h0]
      rw [hfilter]
      simp only [scanLines]
      cases scanLine st l with
      | error e => rfl
      | ok st' => exact ih st'

theorem collect_keyLines {a b : Str} (h : keyLines a = keyLines b) : collect a = collect b := by
  unfold collect
  rw [← scanLines_filter (split '\n' a), ← scanLines_filter (split '\n' b)]
  unfold keyLines at h
  rw [h]

/-- Claim C19: two payloads with the same non-empty lines in the same order, that is,
payloads that differ only by empty lines inserted or removed at any position (a trailing
newline, a blank line between a key line and its continuation, ...), have the same outcome
under `parseSingle`: the same error or success and the same target afterwards, for every
target. -/
theorem empty_lines_transparent (E : Env) (a b : Str) (v : Target)
    (h : keyLines a = keyLines b) : parseSingle E a v = parseSingle E b v := by
  cases v with
  | struct shape r => simp only [parseSingle, collect_keyLines h]
  | _ => rfl

/-- Witness of `empty_lines_transparent`: blank lines before, between and after the lines of
"content: hello\n more: x". -/
theorem empty_lines_transparent_witness :
    parseSingle env0 "\ncontent: hello\n\n\n more: x\n\n".toList
        (.struct TicketComment TicketComment.zero) =
      parseSingle env0 "content: hello\n more: x".toList
        (.struct TicketComment TicketComment.zero) :=
  empty_lines_transparent env0 _ _ _ (by decide)

/-! ## The list decoder -/

theorem scanListLine_nil (E : Env) (st : ListScan) :
    scanListLine E st [] = .returned (.ok st) := by
  simp [scanListLine]

theorem scanListLine_first {E : Env} {line : Str} (h0 : line ≠ []) (lastID : Int) :
    scanListLine E { data := [], lastKey := [], lastID := lastID } line =
      if ':' ∈ line then .panicked else .returned (.error (.malformedLine line)) := by
  have hl : line.length ≠ 0 := by simpa using h0
  by_cases hc : ':' ∈ line
  · simp [scanListLine, hl, splitN2_of_mem hc, storeInner, Map.find, hc]
  · simp [scanListLine, hl, splitN2_of_not_mem hc, hc]

theorem scanListLines_first (E : Env) (lines : List Str) (lastID : Int) :
    scanListLines E { data := [], lastKey := [], lastID := lastID } lines =
      match lines.find? (fun l => l ≠ []) with
      | none => .returned (.ok { data := [], lastKey := [], lastID := lastID })
      | some l => if ':' ∈ l then .panicked else .returned (.error (.malformedLine l)) := by
  induction lines with
  | nil => rfl
  | cons l ls ih =>
    by_cases h0 : l = []
    · subst h0
      simp only [scanListLines, scanListLine_nil]
      simpa using ih
    · have hfind : (l :: ls).find? (fun l => l ≠ []) = some l := by
        simp [List.find?_cons, h0]
      rw [hfind]
      simp only [scanListLines, scanListLine_first h0]
      by_cases hc : ':' ∈ l
      · simp [hc]
      · simp [hc]

/-- Claim C18: `parseList` into a slice is decided by the first non-empty line of the
payload.  When that line contains a colon the call does not return: the value is stored
into the bucket `data[lastID]`, which is a nil map, and the program aborts.  When that line
has no colon the call returns the line-without-colon error naming it.  When the payload has
no non-empty line the call returns success.  In every case the slice is left as it was; so
success is returned only for payloads without a non-empty line, and no record is ever
appended. -/
theorem parseList_first_line (E : Env) (hE : E.Valid) (dataStr : Str) (elem : Option Shape)
    (items : List Record) :
    parseList E dataStr (.slice elem items) =
      match (split '\n' dataStr).find? (fun l => l ≠ []) with
      | none => (.returned none, .slice elem items)
      | some l =>
        if ':' ∈ l then (.panicked, .slice elem items)
        else (.returned (some (.malformedLine l)), .slice elem items) := by
  have hnil : E.rangeBuckets [] = [] := List.Perm.eq_nil (hE.2 [])
  simp only [parseList, scanListLines_first]
  cases (split '\n' dataStr).find? (fun l => l ≠ []) with
  | none => simp [hnil, appendBuckets]
  | some l =>
    by_cases hc : ':' ∈ l
    · simp [hc]
    · simp [hc]

/-- Witness of `parseList_first_line`: the payload "\nid: 1\nstatus\n" into an empty slice of
TicketLink, whose first non-empty line "id: 1" contains a colon. -/
theorem parseList_first_line_witness :
    parseList env0 "\nid: 1\nstatus\n".toList (.slice (some TicketLink) []) =
      (.panicked, .slice (some TicketLink) []) :=
  parseList_first_line env0 ⟨fun m => List.Perm.refl m, fun m => List.Perm.refl m⟩
    "\nid: 1\nstatus\n".toList (some TicketLink) []

/-! ## Invalid targets -/

theorem splitN3_of_length {sep : Char} {s : Str} (h : 3 ≤ (split sep s).length) :
    ∃ b c, splitN3 sep s = [(split sep s).headD [], b, c] := by
  by_cases h1 : sep ∈ s
  · have hd := dropWhile_ne_of_mem h1
    have e3 : splitN3 sep s = s.takeWhile (fun c => c != sep) ::
        splitN2 sep ((s.dropWhile (fun c => c != sep)).drop 1) := by
      unfold splitN3
      rw [List.span_eq_take_drop, hd]
      simp
    by_cases h2 : sep ∈ (s.dropWhile (fun c => c != sep)).drop 1
    · rw [e3, splitN2_of_mem h2, split_of_mem h1]
      exact ⟨_, _, rfl⟩
    · rw [split_of_mem h1, split_of_not_mem h2] at h
      simp at h
  · rw [split_of_not_mem h1] at h
    simp at h

theorem parseSingle_not_struct (E : Env) (dataStr : Str) (v : Target)
    (hv : v.isStruct = false) :
    (parseSingle E dataStr v = (.returned (some .notPointer), v) ∨
      parseSingle E dataStr v = (.returned (some .notStruct), v)) := by
  cases v with
  | struct shape r => simp [Target.isStruct] at hv
  | nil => exact Or.inl rfl
  | notPointer => exact Or.inl rfl
  | nilPointer => exact Or.inl rfl
  | slice elem items => exact Or.inr rfl
  | other => exact Or.inr rfl

/-- Claim C15: `parseSingle` given a target that is not a non-nil pointer to a struct
returns one of the two invalid-target errors ("not a pointer", "non-struct pointer")
whatever the payload, and leaves the target as it was.  Consequently `GetTicketCustomField`,
whose target is a pointer to a string, returns the empty string and the decode error for
every response with status 200 and a valid envelope (at least three parts, the first
containing "RT"). -/
theorem invalid_target_rejected (E : Env) :
    (∀ dataStr v, v.isStruct = false →
      (parseSingle E dataStr v = (.returned (some .notPointer), v) ∨
        parseSingle E dataStr v = (.returned (some .notStruct), v))) ∧
    (∀ (rt : RT) (id : Int) (name body : Str),
      rt.Client (requestURL rt
        ("ticket/".toList ++ itoa id ++ "/custom_fields/".toList ++ name) none) =
          some ⟨200, .complete body⟩ →
      3 ≤ (split '\n' body).length →
      contains ((split '\n' body).headD []) "RT".toList = true →
      GetTicketCustomField E rt id name = .returned ([], some (.decode .notStruct))) := by
  refine ⟨parseSingle_not_struct E, ?_⟩
  intro rt id name body hresp hlen hrt
  obtain ⟨b, c, h3⟩ := splitN3_of_length hlen
  have hrt' : contains ((split '\n' body).head?.getD []) ['R', 'T'] = true := by
    rw [← List.headD_eq_head?_getD]
    exact hrt
  unfold GetTicketCustomField request
  rw [hresp]
  simp [h3, hrt', parseSingle]

/-- Witness of `invalid_target_rejected`: the custom field "Site" of ticket 7, the server
answering "RT/4.0.7 200 Ok\n\nSite: Paris\n". -/
theorem invalid_target_rejected_witness :
    GetTicketCustomField env0
      ⟨"https://rt.example.com/REST/1.0/".toList, "user".toList, "password".toList,
        fun _ => some ⟨200, .complete "RT/4.0.7 200 Ok\n\nSite: Paris\n".toList⟩⟩ 7 "Site".toList =
      .returned ([], some (.decode .notStruct)) :=
  (invalid_target_rejected env0).2 _ 7 "Site".toList "RT/4.0.7 200 Ok\n\nSite: Paris\n".toList
    rfl (by decide) (by decide)

/-! ## Credentials -/

theorem Map.find_set_self {κ α : Type} [DecidableEq κ] (m : Map κ α) (k : κ) (v : α) :
    Map.find (Map.set m k v) k = some v := by
  induction m with
  | nil => simp [Map.set, Map.find]
  | cons x rest ih =>
    obtain ⟨k', v'⟩ := x
    by_cases hk : k' = k
    · simp [Map.set, Map.find, hk]
    · simp [Map.set, Map.find, hk, ih]

theorem Map.find_set_ne {κ α : Type} [DecidableEq κ] (m : Map κ α) {k k' : κ} (v : α)
    (h : k ≠ k') : Map.find (Map.set m k v) k' = Map.find m k' := by
  induction m with
  | nil => simp [Map.set, Map.find, h]
  | cons x rest ih =>
    obtain ⟨k0, v0⟩ := x
    by_cases hk : k0 = k
    · subst hk
      simp [Map.set, Map.find, h]
    · by_cases hk' : k0 = k'
      · subst hk'
        simp [Map.set, Map.find, hk]
      · simp [Map.set, Map.find, hk, hk', ih]

/-- Claim C14, evaluated on the code.  The generic `request` does as the claim says: the
query it encodes maps `user` to the Username and `pass` to the Password and keeps every
other parameter of the caller.  `GetTicketAttachment` does not: the URL it asks for is the
base URL, "ticket/", the id, "/attachments/" and the file name, with no query at all.
Against a server that answers 200 only to a URL carrying "user=user" and "pass=password"
(and 401 otherwise), `GetTicket` of ticket 7 succeeds and `GetTicketAttachment` of its file
"a.txt" fails with the credentials-refused error. -/
theorem attachment_request_without_credentials :
    (∀ (rt : RT) (path : Str) (params : Option Values), ∃ q : Values,
      requestURL rt path params = rt.URL ++ path ++ '?' :: Values.encode q ∧
      Map.find q "user".toList = some [rt.Username] ∧
      Map.find q "pass".toList = some [rt.Password] ∧
      ∀ k, k ≠ "user".toList → k ≠ "pass".toList →
        Map.find q k = Map.find (params.getD []) k) ∧
    attachmentURL
      ⟨"https://rt.example.com/REST/1.0/".toList, "user".toList, "password".toList,
        fun _ => none⟩ 7 "a.txt".toList =
      "https://rt.example.com/REST/1.0/ticket/7/attachments/a.txt".toList ∧
    (GetTicket env0
      ⟨"https://rt.example.com/REST/1.0/".toList, "user".toList, "password".toList,
        fun url => if contains url "user=user".toList ∧ contains url "pass=password".toList
          then some ⟨200, .complete "RT/4.0.7 200 Ok\n\nid: 7\n".toList⟩
          else some ⟨401, .complete []⟩⟩ 7 =
      .returned (.struct Ticket (Ticket.zero.set 0 (.str "7".toList)), none)) ∧
    GetTicketAttachment
      ⟨"https://rt.example.com/REST/1.0/".toList, "user".toList, "password".toList,
        fun url => if contains url "user=user".toList ∧ contains url "pass=password".toList
          then some ⟨200, .complete "RT/4.0.7 200 Ok\n\nid: 7\n".toList⟩
          else some ⟨401, .complete []⟩⟩ 7 "a.txt".toList =
      (none, some .auth) := by
  refine ⟨?_, by decide, by decide, by decide⟩
  intro rt path params
  refine ⟨_, rfl, ?_, ?_, ?_⟩
  · rw [Map.find_set_ne _ _ (by decide), Map.find_set_self]
  · rw [Map.find_set_self]
  · intro k h1 h2
    rw [Map.find_set_ne _ _ (Ne.symm h2), Map.find_set_ne _ _ (Ne.symm h1)]

/-! ## Field matching in UnmarshalShort -/

theorem fieldTable_find_some (shape : Shape) (n : Nat) (m : Map Str Nat) (key : Str) (i : Nat)
    (h : Map.find (fieldTable shape n m) key = some i) :
    (∃ j f, i = n + j ∧ shape[j]? = some f ∧ f.key = key ∧
      ∀ j' g, j < j' → shape[j']? = some g → g.key ≠ key) ∨
    (Map.find m key = some i ∧ ∀ f ∈ shape, f.key ≠ key) := by
  induction shape generalizing n m with
  | nil => exact Or.inr ⟨h, by simp⟩
  | cons f rest ih =>
    simp only [fieldTable] at h
    rcases ih (n + 1) (Map.set m f.key n) h with ⟨j, g, hi, hg, hgk, hlast⟩ | ⟨hm, hno⟩
    · refine Or.inl ⟨j + 1, g, by omega, by simpa using hg, hgk, ?_⟩
      intro j' g' hj' hg'
      cases j' with
      | zero => omega
      | succ j'' =>
        simp only [List.getElem?_cons_succ] at hg'
        exact hlast j'' g' (by omega) hg'
    · by_cases hf : f.key = key
      · rw [hf, Map.find_set_self] at hm
        simp only [Option.some.injEq] at hm
        refine Or.inl ⟨0, f, by omega, by simp, hf, ?_⟩
        intro j' g' hj' hg'
        cases j' with
        | zero => omega
        | succ j'' =>
          simp only [List.getElem?_cons_succ] at hg'
          exact hno g' (List.getElem?_mem hg')
      · rw [Map.find_set_ne _ _ hf] at hm
        refine Or.inr ⟨hm, ?_⟩
        intro g hg
        rcases List.mem_cons.1 hg with e | e
        · rw [e]
          exact hf
        · exact hno g e

theorem fieldTable_find_none (shape : Shape) (n : Nat) (m : Map Str Nat) (key : Str)
    (h : Map.find (fieldTable shape n m) key = none) : ∀ f ∈ shape, f.key ≠ key := by
  induction shape generalizing n m with
  | nil => simp
  | cons f rest ih =>
    simp only [fieldTable] at h
    intro g hg
    rcases List.mem_cons.1 hg with e | e
    · subst e
      intro hk
      have hstill : ∀ (sh : Shape) (n' : Nat) (m' : Map Str Nat),
          (Map.find m' key).isSome → (Map.find (fieldTable sh n' m') key).isSome := by
        intro sh
        induction sh with
        | nil => exact fun _ _ h => h
        | cons a sh ih' =>
          intro n' m' hm'
          simp only [fieldTable]
          apply ih'
          by_cases ha : a.key = key
          · rw [ha, Map.find_set_self]
            rfl
          · rw [Map.find_set_ne _ _ ha]
            exact hm'
      have := hstill rest (n + 1) (Map.set m g.key n) (by rw [hk, Map.find_set_self]; rfl)
      rw [h] at this
      cases this
    · exact ih (n + 1) _ h g e

theorem collect_single_line {key rest : Str} (hk : ':' ∉ key) (hn : '\n' ∉ key ++ ':' :: rest) :
    collect (key ++ ':' :: rest) = .ok [(key, stripValue rest)] := by
  have hc : ':' ∈ key ++ ':' :: rest := by simp
  have h0 : key ++ ':' :: rest ≠ [] := by simp
  have hkey : lineKey (key ++ ':' :: rest) = key := takeWhile_append_sep _ hk
  have hrest : lineRest (key ++ ':' :: rest) = rest := by
    simp only [lineRest]
    rw [dropWhile_append_sep _ hk]
    rfl
  simp only [collect, split_of_not_mem hn, scanLines, scanLine_key h0 hc, hkey, hrest]
  simp [Map.set]

theorem coercible_of_coerce {E : Env} {kind : Kind} {value : Str} {val : Value}
    (h : coerce? E kind value = some val) : coercible E kind value = true := by
  cases kind with
  | string => rfl
  | other => rfl
  | time =>
    simp only [coerce?, Option.map_eq_some'] at h
    obtain ⟨t, ht, -⟩ := h
    simp [coercible, ht]
  | int =>
    simp only [coerce?, Option.map_eq_some'] at h
    obtain ⟨t, ht, -⟩ := h
    simp [coercible, ht]

theorem UnmarshalShort_struct {E : Env} {dataStr : Str} {data : Map Str Str} (shape : Shape)
    (r : Record) (h : collect dataStr = .ok data) :
    UnmarshalShort E dataStr (.struct shape r) =
      ((assignAllShort E shape (fieldTable shape 0 []) r (E.rangeEntries data)).1,
        .struct shape
          (assignAllShort E shape (fieldTable shape 0 []) r (E.rangeEntries data)).2) := by
  simp only [UnmarshalShort, h]

theorem fieldTable_find_key {shape : Shape} {key : Str} {i : Nat} {f : Field}
    (h : Map.find (fieldTable shape 0 []) key = some i) (hf : shape[i]? = some f) :
    f.key = key := by
  rcases fieldTable_find_some shape 0 [] key i h with ⟨j, g, hij, hg, hgk, -⟩ | ⟨hm, -⟩
  · have hij' : i = j := by omega
    subst hij'
    rw [hf] at hg
    cases hg
    exact hgk
  · simp [Map.find] at hm

/-- Claim C12, refuted as stated: `UnmarshalShort` of "id: 7\nstatus: open\n" into a fresh
Ticket sets ID to "7" through the tag, and leaves Status empty: the key `status` is looked
up in the table of tags and names as it is written, and the untagged field is filed under
`Status`. -/
theorem unmarshalShort_case_sensitive :
    UnmarshalShort env0 "id: 7\nstatus: open\n".toList (.struct Ticket Ticket.zero) =
      (.returned none, .struct Ticket (Ticket.zero.set 0 (.str "7".toList))) ∧
    Record.field Ticket (Ticket.zero.set 0 (.str "7".toList)) "Status".toList =
      some (.str []) := by
  refine ⟨by decide, by decide⟩

/-- Claim C12, amended.  `UnmarshalShort` looks a payload key up among the tags of the tagged
fields and the names of the untagged fields, compared exactly: the field it finds is the
last declared field whose tag, or whose name when it has no tag, equals the key, and it
finds none when there is no such field.  For every record type whose string, integer and
timestamp fields are all exported, every record of it, every payload without a line
lacking a colon and every order of visiting the collected keys, `UnmarshalShort` returns;
it returns success exactly when every present value (not empty, not "Not set") whose key
finds a field is accepted by the coercion of that field's type, and a coercion error
otherwise; on success every field found for a key with a present value holds that value
coerced to its type; and in every case the fields found for no key with a present value
keep the value they had. -/
theorem unmarshalShort_field_matching (E : Env) (hE : E.Valid) (dataStr : Str)
    (data : Map Str Str) (shape : Shape) (r : Record) (hs : Settable shape)
    (hlen : r.length = shape.length) (hdata : collect dataStr = .ok data) :
    (∀ key i, Map.find (fieldTable shape 0 []) key = some i →
      ∃ f, shape[i]? = some f ∧ f.key = key ∧
        ∀ j g, i < j → shape[j]? = some g → g.key ≠ key) ∧
    (∀ key, Map.find (fieldTable shape 0 []) key = none → ∀ f ∈ shape, f.key ≠ key) ∧
    ∃ out r', UnmarshalShort E dataStr (.struct shape r) = (out, .struct shape r') ∧
      (out = .returned none ∨ ∃ e, out = .returned (some e) ∧ e.isCoercion = true) ∧
      (out = .returned none ↔
        ∀ x ∈ data, absent x.2 = false → ∀ i f,
          Map.find (fieldTable shape 0 []) x.1 = some i → shape[i]? = some f →
          coercible E f.kind x.2 = true) ∧
      (out = .returned none →
        ∀ x ∈ data, absent x.2 = false → ∀ i f,
          Map.find (fieldTable shape 0 []) x.1 = some i → shape[i]? = some f →
          f.kind ≠ .other → r'[i]? = coerce? E f.kind x.2) ∧
      (∀ i, (∀ x ∈ data, absent x.2 = false →
          Map.find (fieldTable shape 0 []) x.1 ≠ some i) → r'[i]? = r[i]?) := by
  have hperm := hE.1 data
  have hnd : (E.rangeEntries data).Nodup :=
    hperm.nodup_iff.2 (List.Nodup.of_map Prod.fst (collect_nodup hdata))
  have hkeys : ∀ x ∈ data, ∀ y ∈ data, x.1 = y.1 → x = y := fun x hx y hy e =>
    List.inj_on_of_nodup_map (collect_nodup hdata) hx hy e
  refine ⟨?_, fun key h => fieldTable_find_none shape 0 [] key h, ?_⟩
  · intro key i hi
    rcases fieldTable_find_some shape 0 [] key i hi with ⟨j, f, hij, hf, hfk, hlast⟩ | ⟨hm, -⟩
    · have hij' : i = j := by omega
      subst hij'
      exact ⟨f, hf, hfk, hlast⟩
    · simp [Map.find] at hm
  · have hiff : (assignAllShort E shape (fieldTable shape 0 []) r (E.rangeEntries data)).1 =
          .returned none ↔
        ∀ x ∈ data, absent x.2 = false → ∀ i f,
          Map.find (fieldTable shape 0 []) x.1 = some i → shape[i]? = some f →
          coercible E f.kind x.2 = true := by
      constructor
      · intro hnone x hx hab i f hi hf
        obtain ⟨r1, h1⟩ := (assignLoop_none_iff _ r).1 hnone x (hperm.mem_iff.2 hx) r
        obtain ⟨key, value⟩ := x
        rw [assignStep_found hab hi hf] at h1
        rcases setField_cases E f i value with ⟨ho, -⟩ | ⟨val, -, -, hv, -⟩ | ⟨e, -, -, hse⟩ |
          ⟨-, -, hco, -⟩
        · simp [coercible, ho]
        · exact coercible_of_coerce hv
        · rw [hse r] at h1
          cases h1
        · exact hco
      · intro hall
        apply (assignLoop_none_iff _ r).2
        intro x hx r0
        apply assignStep_of_coercible hs
        intro i f hi hf hab
        exact hall x (hperm.mem_iff.1 hx) hab i f hi hf
    refine ⟨_, _, UnmarshalShort_struct shape r hdata, ?_, hiff, ?_, ?_⟩
    · rcases @assignLoop_outcome E shape (fun key => Map.find (fieldTable shape 0 []) key)
        (E.rangeEntries data) r with h1 | h1 | ⟨h1, -⟩
      · exact Or.inl h1
      · exact Or.inr h1
      · exact absurd h1 (assignLoop_settable hs _ r)
    · intro hnone x hx hab i f hi hf hk
      obtain ⟨r1, h1⟩ := (assignLoop_none_iff _ r).1 hnone x (hperm.mem_iff.2 hx) r
      obtain ⟨key, value⟩ := x
      rw [assignStep_found hab hi hf] at h1
      rcases setField_cases E f i value with ⟨ho, -⟩ | ⟨val, -, -, hv, hset⟩ | ⟨e, -, -, hse⟩ |
        ⟨-, -, -, hse⟩
      · exact absurd ho hk
      · rw [hv]
        apply assignLoop_sets _ r hnd (hperm.mem_iff.2 hx)
          (fun r0 => by rw [assignStep_found hab hi hf, hset])
        · intro y hy hty
          apply hkeys y (hperm.mem_iff.1 hy) (key, value) hx
          have h2 := hty.2
          simp only at h2
          rw [← fieldTable_find_key h2 hf, ← fieldTable_find_key hi hf]
        · rw [hlen]
          exact (List.getElem?_eq_some_iff.1 hf).1
        · exact hnone
      · rw [hse r] at h1
        cases h1
      · rw [hse r] at h1
        cases h1
    · intro i hno
      apply assignLoop_frame
      intro x hx ht
      exact hno x (hperm.mem_iff.1 hx) ht.1 ht.2

/-- Witness of `unmarshalShort_field_matching`: "id: 7\nStatus: open\n" into a fresh Ticket
returns success with ID (position 0, by its tag) set to "7" and Status (position 5, by its
name) set to "open", and leaves Queue (position 1) as it was. -/
theorem unmarshalShort_field_matching_witness :
    ∃ r', UnmarshalShort env0 "id: 7\nStatus: open\n".toList (.struct Ticket Ticket.zero) =
        (.returned none, .struct Ticket r') ∧
      r'[0]? = some (.str "7".toList) ∧ r'[5]? = some (.str "open".toList) ∧
      r'[1]? = Ticket.zero[1]? := by
  obtain ⟨out, r', h, -, hiff, hval, hframe⟩ := (unmarshalShort_field_matching env0
    ⟨fun m => List.Perm.refl m, fun m => List.Perm.refl m⟩ "id: 7\nStatus: open\n".toList
    [("id".toList, "7".toList), ("Status".toList, "open".toList)] Ticket Ticket.zero
    (by decide) (by decide) rfl).2.2
  have hid : Map.find (fieldTable Ticket 0 []) "id".toList = some 0 := by decide
  have hst : Map.find (fieldTable Ticket 0 []) "Status".toList = some 5 := by decide
  have hout : out = .returned none := by
    apply hiff.2
    intro x hx _ i f hi hf
    simp only [List.mem_cons, List.mem_singleton, List.not_mem_nil, or_false] at hx
    rcases hx with rfl | rfl
    · rw [hid] at hi
      cases hi
      cases hf
      rfl
    · rw [hst] at hi
      cases hi
      cases hf
      rfl
  subst hout
  exact ⟨r', h,
    hval rfl ("id".toList, "7".toList) (by decide) (by decide) 0 _ hid rfl (by decide),
    hval rfl ("Status".toList, "open".toList) (by decide) (by decide) 5 _ hst rfl
      (by decide),
    hframe 1 (by decide)⟩

/-! ## Space-led lines -/

theorem scanLines_append (pre post : List Str) (st st1 : Scan)
    (h : scanLines st pre = .ok st1) : scanLines st (pre ++ post) = scanLines st1 post := by
  induction pre generalizing st with
  | nil =>
    simp only [scanLines] at h
    cases h
    rfl
  | cons l ls ih =>
    simp only [scanLines, List.cons_append] at h ⊢
    cases hl : scanLine st l with
    | error e =>
      rw [hl] at h
      cases h
    | ok st' =>
      rw [hl] at h
      exact ih st' h

theorem Map.get_set_self (m : Map Str Str) (k v : Str) : Map.get (Map.set m k v) k = v := by
  simp [Map.get, Map.find_set_self]

/-- Claim C17, refuted as stated: in the payload ": v\n more: x" the key line has the empty
key, and nothing is appended to its value when the space-led line is read, because the
append is guarded by `lastKey != ""`: the map collected is "" = "v", " more" = "x". -/
theorem space_led_line_after_empty_key :
    collect ": v\n more: x".toList =
      .ok [([], "v".toList), (" more".toList, "x".toList)] := by
  rfl

/-- Claim C17, amended: let a payload contain a key line with a non-empty key `k` and text
`rest` after its colon, immediately followed by a line `L` that begins with a space and
contains a colon.  After the key line the value of `k` is `rest` less one leading space.
Reading `L`, the loop first appends a newline and `L` trimmed to the value of `k`, then
splits `L` itself at its first colon and stores the text after it (less one leading space)
under the text before it, leading space included; that key is `lastKey` for the lines that
follow. -/
theorem space_led_line_order (st0 st1 : Scan) (pre post : List Str) (k rest L : Str)
    (hpre : scanLines st0 pre = .ok st1) (hk : k ≠ []) (hkc : ':' ∉ k)
    (hsp : L.head? = some ' ') (hc : ':' ∈ L) :
    ∃ st2, scanLine st1 (k ++ ':' :: rest) = .ok st2 ∧ st2.lastKey = k ∧
      Map.get st2.data k = stripValue rest ∧
      scanLine st2 L = .ok
        { data := Map.set (Map.set st2.data k (stripValue rest ++ '\n' :: trimSpace L))
            (lineKey L) (lineValue L),
          lastKey := lineKey L } ∧
      scanLines st0 (pre ++ (k ++ ':' :: rest) :: L :: post) =
        scanLines
          { data := Map.set (Map.set st2.data k (stripValue rest ++ '\n' :: trimSpace L))
              (lineKey L) (lineValue L),
            lastKey := lineKey L } post := by
  have hc1 : ':' ∈ k ++ ':' :: rest := by simp
  have h01 : k ++ ':' :: rest ≠ [] := by simp
  have hkey : lineKey (k ++ ':' :: rest) = k := takeWhile_append_sep _ hkc
  have hrest : lineRest (k ++ ':' :: rest) = rest := by
    simp only [lineRest]
    rw [dropWhile_append_sep _ hkc]
    rfl
  have h0L : L ≠ [] := by
    intro e
    rw [e] at hc
    simp at hc
  have h1 := @scanLine_key st1 _ h01 hc1
  rw [hkey, hrest] at h1
  have h2 : ∀ st2 : Scan, st2.lastKey = k → Map.get st2.data k = stripValue rest →
      scanLine st2 L = .ok
        { data := Map.set (Map.set st2.data k (stripValue rest ++ '\n' :: trimSpace L))
            (lineKey L) (lineValue L),
          lastKey := lineKey L } := by
    intro st2 hlk hget
    rw [scanLine_key h0L hc, hlk, hget]
    simp [hsp, hk, lineValue]
  obtain ⟨st2, hst2, hlk, hget⟩ : ∃ st2, scanLine st1 (k ++ ':' :: rest) = .ok st2 ∧
      st2.lastKey = k ∧ Map.get st2.data k = stripValue rest :=
    ⟨_, h1, rfl, Map.get_set_self _ _ _⟩
  refine ⟨st2, hst2, hlk, hget, h2 st2 hlk hget, ?_⟩
  rw [scanLines_append pre _ st0 st1 hpre]
  simp only [scanLines, hst2, h2 st2 hlk hget]

/-- Witness of `space_led_line_order`: the payload "content: hello\n more: x", which
collects content = "hello\nmore: x" and " more" = "x". -/
theorem space_led_line_order_witness :
    collect "content: hello\n more: x".toList =
      .ok [("content".toList, "hello\nmore: x".toList), (" more".toList, "x".toList)] := by
  obtain ⟨st2, h1, -, -, -, h5⟩ := space_led_line_order { data := [], lastKey := [] }
    { data := [], lastKey := [] } [] [] "content".toList " hello".toList " more: x".toList
    rfl (by decide) (by decide) rfl (by decide)
  have h1' : scanLine { data := [], lastKey := [] } ("content".toList ++ ':' :: " hello".toList)
      = .ok { data := [("content".toList, "hello".toList)], lastKey := "content".toList } := rfl
  rw [h1'] at h1
  cases h1
  have hs : split '\n' "content: hello\n more: x".toList =
      [] ++ ("content".toList ++ ':' :: " hello".toList) :: " more: x".toList :: [] := by
    decide
  unfold collect
  rw [hs, h5]
  rfl

/-! ## The order of visiting the collected entries -/

theorem assignStep_visiting (E : Env) (order : Map Str Str → Map Str Str) (shape : Shape)
    (r : Record) (x : Str × Str) :
    assignStep (E.visiting order) shape (lookupField (E.visiting order) shape) r x =
      assignStep E shape (lookupField E shape) r x := rfl

theorem assignAll_visiting (E : Env) (order : Map Str Str → Map Str Str) (shape : Shape)
    (es : List (Str × Str)) (r : Record) :
    assignAll (E.visiting order) shape r es = assignAll E shape r es := by
  induction es generalizing r with
  | nil => rfl
  | cons x rest ih =>
    simp only [assignAll, assignLoop, assignStep_visiting] at ih ⊢
    split
    · rfl
    · rfl
    · rename_i r1 h1
      exact ih r1

/-- Claim C13, refuted as stated: the payload "status: a\nStatus: b\n" collects two keys that
both name the field Status of a Ticket.  Visited in the order of their appearance they leave
Status = "b"; visited in the reverse order they leave Status = "a".  Both orders are orders
in which `range` may visit the map. -/
theorem decode_depends_on_order :
    env0.Valid ∧ env1.Valid ∧
    parseSingle env0 "status: a\nStatus: b\n".toList (.struct Ticket Ticket.zero) =
      (.returned none, .struct Ticket (Ticket.zero.set 5 (.str "b".toList))) ∧
    parseSingle env1 "status: a\nStatus: b\n".toList (.struct Ticket Ticket.zero) =
      (.returned none, .struct Ticket (Ticket.zero.set 5 (.str "a".toList))) :=
  ⟨⟨fun m => List.Perm.refl m, fun m => List.Perm.refl m⟩,
    ⟨fun m => List.reverse_perm m, fun m => List.reverse_perm m⟩, by decide, by decide⟩

/-- Claim C13, amended: for every payload and every target, whether `parseSingle` succeeds
or fails does not depend on the order in which the collected entries are visited; and when
it succeeds and no two collected entries with a present value are looked up to the same
field, the target afterwards does not depend on that order either.  (After a failure, and
when two keys name the same field, the contents of the record depend on the order.) -/
theorem decode_order_independence (E : Env) (hE : E.Valid)
    (order : Map Str Str → Map Str Str) (horder : ∀ m, (order m).Perm m) (dataStr : Str)
    (v : Target) :
    ((parseSingle (E.visiting order) dataStr v).1 = .returned none ↔
      (parseSingle E dataStr v).1 = .returned none) ∧
    (∀ shape r data, v = .struct shape r → collect dataStr = .ok data →
      NoSharedField E shape data →
      (parseSingle E dataStr v).1 = .returned none →
      parseSingle (E.visiting order) dataStr v = parseSingle E dataStr v) := by
  have hperm : ∀ data, (order data).Perm (E.rangeEntries data) :=
    fun data => (horder data).trans (hE.1 data).symm
  have hiff : ∀ shape r data, (assignAll E shape r (order data)).1 = .returned none ↔
      (assignAll E shape r (E.rangeEntries data)).1 = .returned none := by
    intro shape r data
    unfold assignAll
    rw [assignLoop_none_iff, assignLoop_none_iff]
    exact ⟨fun h x hx => h x ((hperm data).mem_iff.2 hx),
      fun h x hx => h x ((hperm data).mem_iff.1 hx)⟩
  constructor
  · cases v with
    | struct shape r =>
      cases hd : collect dataStr with
      | error e => simp [parseSingle, hd]
      | ok data =>
        rw [parseSingle_struct shape r hd, parseSingle_struct shape r hd, assignAll_visiting]
        exact hiff shape r data
    | _ => exact Iff.rfl
  · intro shape r data hv hd hone hok
    subst hv
    rw [parseSingle_struct shape r hd] at hok ⊢
    rw [parseSingle_struct shape r hd, assignAll_visiting]
    simp only at hok
    have hok' := (hiff shape r data).2 hok
    have hnd : (E.rangeEntries data).Nodup :=
      (hE.1 data).nodup_iff.2 (List.Nodup.of_map Prod.fst (collect_nodup hd))
    have hrec : (assignAll E shape r (order data)).2 =
        (assignAll E shape r (E.rangeEntries data)).2 := by
      apply List.ext_getElem?
      intro i
      exact (assignLoop_perm_getElem? r i (hperm data).symm hnd
        (fun x hx y hy htx hty => hone x ((hE.1 data).mem_iff.1 hx) y
          ((hE.1 data).mem_iff.1 hy) htx.1 hty.1 (by rw [htx.2]; simp)
          (by rw [htx.2, hty.2]))
        hok hok').symm
    show ((assignAll E shape r (order data)).1, Target.struct shape
        (assignAll E shape r (order data)).2) = _
    rw [hrec, hok, hok']

/-- Witness of `decode_order_independence`: "id: 7\nstatus: open\n" into a fresh Ticket,
visited in reverse order, gives what the order of appearance gives. -/
theorem decode_order_independence_witness :
    parseSingle (env0.visiting List.reverse) "id: 7\nstatus: open\n".toList
        (.struct Ticket Ticket.zero) =
      parseSingle env0 "id: 7\nstatus: open\n".toList (.struct Ticket Ticket.zero) :=
  (decode_order_independence env0 ⟨fun m => List.Perm.refl m, fun m => List.Perm.refl m⟩
    List.reverse (fun m => List.reverse_perm m) "id: 7\nstatus: open\n".toList
    (.struct Ticket Ticket.zero)).2 Ticket Ticket.zero
    [("id".toList, "7".toList), ("status".toList, "open".toList)] rfl rfl (by decide)
    (by decide)

/-! ## Integers -/

theorem digit?_digitChar {m : Nat} (h : m < 10) : digit? (Nat.digitChar m) = some m := by
  interval_cases m <;> rfl

theorem digits?_append (l1 l2 : Str) (acc : Nat) :
    digits? acc (l1 ++ l2) = (digits? acc l1).bind (fun a => digits? a l2) := by
  induction l1 generalizing acc with
  | nil => rfl
  | cons c cs ih =>
    simp only [List.cons_append, digits?]
    cases digit? c with
    | none => rfl
    | some d => exact ih _

theorem toDigitsCore_spec (fuel n : Nat) (ds : Str) (h : n < fuel) :
    ∃ l, Nat.toDigitsCore 10 fuel n ds = l ++ ds ∧ digits? 0 l = some n ∧ l ≠ [] ∧
      ∀ c ∈ l, (digit? c).isSome = true := by
  induction fuel generalizing n ds with
  | zero => omega
  | succ fuel ih =>
    have hd : digit? (Nat.digitChar (n % 10)) = some (n % 10) :=
      digit?_digitChar (Nat.mod_lt _ (by omega))
    unfold Nat.toDigitsCore
    simp only
    by_cases h0 : n / 10 = 0
    · rw [if_pos h0]
      refine ⟨[Nat.digitChar (n % 10)], rfl, ?_, by simp, ?_⟩
      · simp only [digits?, hd]
        congr 1
        omega
      · intro c hc
        simp only [List.mem_singleton] at hc
        rw [hc, hd]
        rfl
    · rw [if_neg h0]
      obtain ⟨l, hl, hval, hne, hdig⟩ := ih (n / 10) (Nat.digitChar (n % 10) :: ds) (by omega)
      refine ⟨l ++ [Nat.digitChar (n % 10)], by simp [hl], ?_, by simp, ?_⟩
      · rw [digits?_append, hval]
        simp only [Option.bind, digits?, hd]
        congr 1
        omega
      · intro c hc
        rcases List.mem_append.1 hc with h1 | h1
        · exact hdig c h1
        · simp only [List.mem_singleton] at h1
          rw [h1, hd]
          rfl

theorem toDigits_spec (n : Nat) :
    digits? 0 (Nat.toDigits 10 n) = some n ∧ Nat.toDigits 10 n ≠ [] ∧
      ∀ c ∈ Nat.toDigits 10 n, (digit? c).isSome = true := by
  obtain ⟨l, hl, hval, hne, hdig⟩ := toDigitsCore_spec (n + 1) n [] (by omega)
  unfold Nat.toDigits
  rw [hl, List.append_nil]
  exact ⟨hval, hne, hdig⟩

theorem itoa_ofNat (m : Nat) : itoa (Int.ofNat m) = Nat.toDigits 10 m := rfl

theorem itoa_negSucc (m : Nat) : itoa (Int.negSucc m) = '-' :: Nat.toDigits 10 (m + 1) := by
  simp [itoa, Int.repr, Nat.repr, List.asString]

theorem atoi_digits (bits : Nat) (ds : Str) (n : Nat) (hne : ds ≠ [])
    (hdig : ∀ c ∈ ds, (digit? c).isSome = true) (hval : digits? 0 ds = some n) :
    atoi bits ds =
      if -(2 : Int) ^ (bits - 1) ≤ (n : Int) ∧ (n : Int) < (2 : Int) ^ (bits - 1)
      then some (n : Int) else none := by
  cases ds with
  | nil => exact absurd rfl hne
  | cons c cs =>
    have hc := hdig c (List.mem_cons_self _ _)
    have h1 : c ≠ '-' := by
      intro e
      rw [e] at hc
      exact absurd hc (by decide)
    have h2 : c ≠ '+' := by
      intro e
      rw [e] at hc
      exact absurd hc (by decide)
    unfold atoi
    split
    rename_i neg r heq
    split at heq
    · rename_i r' heq'
      exact absurd (List.cons.inj heq').1 h1
    · rename_i r' heq'
      exact absurd (List.cons.inj heq').1 h2
    · cases heq
      simp [hval]

theorem atoi_neg_digits (bits : Nat) (ds : Str) (n : Nat) (hne : ds ≠ [])
    (hval : digits? 0 ds = some n) :
    atoi bits ('-' :: ds) =
      if -(2 : Int) ^ (bits - 1) ≤ -(n : Int) ∧ -(n : Int) < (2 : Int) ^ (bits - 1)
      then some (-(n : Int)) else none := by
  have hl : ds.length ≠ 0 := by simpa using hne
  simp [atoi, hval, hl]

theorem atoi_itoa (bits : Nat) (n : Int)
    (h : -(2 : Int) ^ (bits - 1) ≤ n ∧ n < (2 : Int) ^ (bits - 1)) :
    atoi bits (itoa n) = some n := by
  cases n with
  | ofNat m =>
    obtain ⟨hval, hne, hdig⟩ := toDigits_spec m
    rw [itoa_ofNat, atoi_digits bits _ m hne hdig hval]
    exact if_pos h
  | negSucc m =>
    obtain ⟨hval, hne, hdig⟩ := toDigits_spec (m + 1)
    have e : Int.negSucc m = -((m + 1 : Nat) : Int) := rfl
    rw [itoa_negSucc, atoi_neg_digits bits _ (m + 1) hne hval, ← e, if_pos h]

theorem digit?_of_isSpace {c : Char} (h : isSpace c = true) : digit? c = none := by
  simp only [isSpace, Bool.or_eq_true, Bool.and_eq_true, decide_eq_true_eq] at h
  simp only [digit?]
  rw [if_neg]
  omega

theorem digits?_none_of_mem {c : Char} {ds : Str} (hc : c ∈ ds) (hd : digit? c = none)
    (acc : Nat) : digits? acc ds = none := by
  induction ds generalizing acc with
  | nil => simp at hc
  | cons x xs ih =>
    simp only [digits?]
    rcases List.mem_cons.1 hc with e | e
    · rw [← e, hd]
    · cases digit? x with
      | none => rfl
      | some d => exact ih e _

theorem atoi_none_of_space (bits : Nat) {v : Str} {c : Char} (hc : c ∈ v)
    (hs : isSpace c = true) : atoi bits v = none := by
  have hd := digit?_of_isSpace hs
  have h1 : c ≠ '-' := by
    intro e
    rw [e] at hs
    exact absurd hs (by decide)
  have h2 : c ≠ '+' := by
    intro e
    rw [e] at hs
    exact absurd hs (by decide)
  unfold atoi
  split
  rename_i neg r heq
  have hr : c ∈ r := by
    split at heq
    · cases heq
      rcases List.mem_cons.1 hc with e | e
      · exact absurd e h1
      · exact e
    · cases heq
      rcases List.mem_cons.1 hc with e | e
      · exact absurd e h2
      · exact e
    · cases heq
      exact hc
  simp [digits?_none_of_mem hr hd]

theorem itoa_chars (n : Int) :
    itoa n ≠ [] ∧ ∀ c ∈ itoa n, c = '-' ∨ (digit? c).isSome = true := by
  cases n with
  | ofNat m =>
    obtain ⟨-, hne, hdig⟩ := toDigits_spec m
    rw [itoa_ofNat]
    exact ⟨hne, fun c hc => Or.inr (hdig c hc)⟩
  | negSucc m =>
    obtain ⟨-, -, hdig⟩ := toDigits_spec (m + 1)
    rw [itoa_negSucc]
    refine ⟨by simp, fun c hc => ?_⟩
    rcases List.mem_cons.1 hc with e | e
    · exact Or.inl e
    · exact Or.inr (hdig c e)

theorem parseSingle_priority_line (E : Env) (hE : E.Valid)
    (hlook : lookupField E Ticket "priority".toList = some 6) (s : Str) (hs : '\n' ∉ s)
    (hab : absent s = false) :
    parseSingle E ("priority: ".toList ++ s) (.struct Ticket Ticket.zero) =
      match atoi E.intBits s with
      | some n => (.returned none, .struct Ticket (Ticket.zero.set 6 (.int n)))
      | none => (.returned (some (.intCoercion s)), .struct Ticket Ticket.zero) := by
  have hpay : "priority: ".toList ++ s = "priority".toList ++ ':' :: ' ' :: s := rfl
  have hdata : collect ("priority: ".toList ++ s) = .ok [("priority".toList, s)] := by
    rw [hpay, collect_single_line (by decide) (by simp [hs])]
    simp [stripValue]
  have hone : E.rangeEntries [("priority".toList, s)] = [("priority".toList, s)] :=
    List.perm_singleton.1 (hE.1 _)
  have hf : Ticket[6]? = some (fld "Priority" .int) := rfl
  rw [parseSingle_struct Ticket Ticket.zero hdata, hone]
  simp only [assignAll, assignLoop, assignStep, hab, hlook, hf, setField, fld]
  cases atoi E.intBits s with
  | none => rfl
  | some n => rfl

/-- Claim C16: in an environment whose case folding makes the key `priority` name the field
Priority of Ticket (as Unicode case folding does), for every integer `n` in the range of
`int`, decoding the single line "priority: " followed by the decimal rendering of `n` into a
fresh Ticket succeeds, sets Priority to `n` and leaves every other field at its zero value.
A value with no newline that begins or ends with white space, such as the " 5" left of
"priority:  5", is not trimmed: the decode returns the integer coercion error naming that
value and the Ticket stays empty. -/
theorem priority_round_trip (E : Env) (hE : E.Valid)
    (hlook : lookupField E Ticket "priority".toList = some 6) :
    (∀ n : Int, -(2 : Int) ^ (E.intBits - 1) ≤ n ∧ n < (2 : Int) ^ (E.intBits - 1) →
      parseSingle E ("priority: ".toList ++ itoa n) (.struct Ticket Ticket.zero) =
        (.returned none, .struct Ticket (Ticket.zero.set 6 (.int n)))) ∧
    (∀ v : Str, '\n' ∉ v →
      (v.head?.any isSpace = true ∨ v.getLast?.any isSpace = true) →
      parseSingle E ("priority: ".toList ++ v) (.struct Ticket Ticket.zero) =
        (.returned (some (.intCoercion v)), .struct Ticket Ticket.zero)) := by
  constructor
  · intro n hn
    obtain ⟨hne, hch⟩ := itoa_chars n
    have hnl : '\n' ∉ itoa n := by
      intro h
      rcases hch _ h with e | e
      · exact absurd e (by decide)
      · exact absurd e (by decide)
    have hns : itoa n ≠ "Not set".toList := by
      intro h
      have hmem : 'N' ∈ itoa n := by
        rw [h]
        decide
      rcases hch _ hmem with e | e
      · exact absurd e (by decide)
      · exact absurd e (by decide)
    have hns' : itoa n ≠ ['N', 'o', 't', ' ', 's', 'e', 't'] := hns
    have hab : absent (itoa n) = false := by simp [absent, hne, hns']
    rw [parseSingle_priority_line E hE hlook _ hnl hab, atoi_itoa _ n hn]
  · intro v hnl hsp
    obtain ⟨c, hc, hcs⟩ : ∃ c ∈ v, isSpace c = true := by
      rcases hsp with h | h
      · cases v with
        | nil => simp at h
        | cons a as => exact ⟨a, List.mem_cons_self _ _, by simpa using h⟩
      · cases hl : v.getLast? with
        | none =>
          rw [hl] at h
          simp at h
        | some a =>
          rw [hl] at h
          exact ⟨a, List.mem_of_getLast?_eq_some hl, by simpa using h⟩
    have hne : v ≠ [] := List.ne_nil_of_mem hc
    have hns : v ≠ ['N', 'o', 't', ' ', 's', 'e', 't'] := by
      intro e
      rw [e] at hsp
      revert hsp
      decide
    have hab : absent v = false := by simp [absent, hne, hns]
    rw [parseSingle_priority_line E hE hlook _ hnl hab, atoi_none_of_space _ hc hcs]

/-- Witness of `priority_round_trip`: "priority: -12" with a 64-bit `int`. -/
theorem priority_round_trip_witness :
    parseSingle env0 ("priority: ".toList ++ itoa (-12)) (.struct Ticket Ticket.zero) =
      (.returned none, .struct Ticket (Ticket.zero.set 6 (.int (-12)))) :=
  (priority_round_trip env0 ⟨fun m => List.Perm.refl m, fun m => List.Perm.refl m⟩
    (by decide)).1 (-12) (by decide)

/-! ## Keys that name no field -/

theorem Map.filter_set_self (m : Map Str Str) (k v : Str) :
    (Map.set m k v).filter (fun e => e.1 ≠ k) = m.filter (fun e => e.1 ≠ k) := by
  induction m with
  | nil => simp [Map.set]
  | cons x rest ih =>
    obtain ⟨k', v'⟩ := x
    by_cases hk : k' = k
    · subst hk
      simp [Map.set, List.filter_cons]
    · simp only [Map.set, hk, if_false, List.filter_cons, ih]

theorem Map.filter_set_ne (m : Map Str Str) {k key : Str} (v : Str) (h : key ≠ k) :
    (Map.set m key v).filter (fun e => e.1 ≠ k) =
      Map.set (m.filter (fun e => e.1 ≠ k)) key v := by
  induction m with
  | nil => simp [Map.set, List.filter_cons, h]
  | cons x rest ih =>
    obtain ⟨k', v'⟩ := x
    by_cases hk : k' = key
    · subst hk
      simp [Map.set, List.filter_cons, h]
    · by_cases hk' : k' = k
      · subst hk'
        simp only [Map.set, hk, if_false, List.filter_cons, ih]
        simp
      · simp only [Map.set, hk, if_false, List.filter_cons, ih]
        simp [hk', Map.set, hk]

theorem scanLine_plain {line : Str} (st : Scan) (h0 : line ≠ []) (hc : ':' ∈ line)
    (hsp : line.head? ≠ some ' ') :
    scanLine st line = .ok
      { data := Map.set st.data (lineKey line) (lineValue line), lastKey := lineKey line } := by
  rw [scanLine_key h0 hc]
  simp [hsp, lineValue]

theorem scanLines_related (k : Str) (lines : List Str)
    (hsp : ∀ l ∈ lines, l.head? ≠ some ' ') (st st' : Scan)
    (hrel : st.data.filter (fun e => e.1 ≠ k) = st'.data.filter (fun e => e.1 ≠ k)) :
    (∃ e, scanLines st lines = .error e ∧ scanLines st' lines = .error e) ∨
    (∃ s s', scanLines st lines = .ok s ∧ scanLines st' lines = .ok s' ∧
      s.data.filter (fun e => e.1 ≠ k) = s'.data.filter (fun e => e.1 ≠ k)) := by
  induction lines generalizing st st' with
  | nil => exact Or.inr ⟨st, st', rfl, rfl, hrel⟩
  | cons l ls ih =>
    have hsp' : ∀ l ∈ ls, l.head? ≠ some ' ' := fun x hx => hsp x (List.mem_cons_of_mem _ hx)
    by_cases h0 : l = []
    · subst h0
      simp only [scanLines, scanLine_nil]
      exact ih hsp' st st' hrel
    · by_cases hc : ':' ∈ l
      · have hl := hsp l (List.mem_cons_self _ _)
        simp only [scanLines, scanLine_plain _ h0 hc hl]
        apply ih hsp'
        simp only
        by_cases hk : lineKey l = k
        · rw [hk, Map.filter_set_self, Map.filter_set_self, hrel]
        · rw [Map.filter_set_ne _ _ hk, Map.filter_set_ne _ _ hk, hrel]
      · have hm : malformed l = true := by simp [malformed, h0, hc]
        exact Or.inl ⟨.malformedLine l, by simp [scanLines, scanLine_malformed hm],
          by simp [scanLines, scanLine_malformed hm]⟩

theorem collect_insert_line {a b : Str} {l1 l2 : List Str} {k rest : Str}
    (ha : split '\n' a = l1 ++ l2) (hb : split '\n' b = l1 ++ (k ++ ':' :: rest) :: l2)
    (hk : ':' ∉ k) (hksp : k.head? ≠ some ' ')
    (hsp : ∀ l ∈ l1 ++ l2, l.head? ≠ some ' ') :
    (∃ e, collect a = .error e ∧ collect b = .error e) ∨
    (∃ d d', collect a = .ok d ∧ collect b = .ok d' ∧
      d.filter (fun e => e.1 ≠ k) = d'.filter (fun e => e.1 ≠ k)) := by
  have hline0 : k ++ ':' :: rest ≠ [] := by simp
  have hlinec : ':' ∈ k ++ ':' :: rest := by simp
  have hlinesp : (k ++ ':' :: rest).head? ≠ some ' ' := by
    cases k with
    | nil => simp
    | cons c cs => simpa using hksp
  have hkey : lineKey (k ++ ':' :: rest) = k := takeWhile_append_sep _ hk
  unfold collect
  rw [ha, hb]
  cases h1 : scanLines { data := [], lastKey := [] } l1 with
  | error e =>
    left
    refine ⟨e, ?_, ?_⟩
    · have : scanLines { data := [], lastKey := [] } (l1 ++ l2) = .error e := by
        clear ha hb hsp
        revert h1
        generalize ({ data := [], lastKey := [] } : Scan) = st
        induction l1 generalizing st with
        | nil => intro h1; simp [scanLines] at h1
        | cons x xs ih =>
          intro h1
          simp only [scanLines, List.cons_append] at h1 ⊢
          cases hx : scanLine st x with
          | error e' =>
            rw [hx] at h1
            exact h1
          | ok st' =>
            rw [hx] at h1
            exact ih st' h1
      rw [this]
    · have : scanLines { data := [], lastKey := [] } (l1 ++ (k ++ ':' :: rest) :: l2) =
          .error e := by
        clear ha hb hsp
        revert h1
        generalize ({ data := [], lastKey := [] } : Scan) = st
        induction l1 generalizing st with
        | nil => intro h1; simp [scanLines] at h1
        | cons x xs ih =>
          intro h1
          simp only [scanLines, List.cons_append] at h1 ⊢
          cases hx : scanLine st x with
          | error e' =>
            rw [hx] at h1
            exact h1
          | ok st' =>
            rw [hx] at h1
            exact ih st' h1
      rw [this]
  | ok st1 =>
    rw [scanLines_append l1 _ _ st1 h1, scanLines_append l1 _ _ st1 h1]
    simp only [scanLines, scanLine_plain _ hline0 hlinec hlinesp, hkey]
    have hrel : st1.data.filter (fun e => e.1 ≠ k) =
        (Map.set st1.data k (lineValue (k ++ ':' :: rest))).filter (fun e => e.1 ≠ k) := by
      rw [Map.filter_set_self]
    rcases scanLines_related k l2 (fun l hl => hsp l (List.mem_append_right _ hl)) st1
      { data := Map.set st1.data k (lineValue (k ++ ':' :: rest)), lastKey := k } hrel with
      ⟨e, he1, he2⟩ | ⟨s, s', hs1, hs2, hss⟩
    · exact Or.inl ⟨e, by rw [he1], by rw [he2]⟩
    · exact Or.inr ⟨s.data, s'.data, by rw [hs1], by rw [hs2], hss⟩

theorem lookupField_none_of_no_match {E : Env} {shape : Shape} {k : Str}
    (h : ∀ f ∈ shape, equalFold E f.name k = false) : lookupField E shape k = none := by
  have hc : shape.countP (fun f => equalFold E f.name k) = 0 := by
    rw [List.countP_eq_zero]
    intro f hf
    rw [h f hf]
    simp
  simp [lookupField, fieldByNameFunc, hc]

theorem assignEntry_unknown {E : Env} {shape : Shape} {k : Str}
    (h : lookupField E shape k = none) (v : Str) (r0 : Record) :
    assignEntry E shape r0 (k, v) = .returned (.ok r0) := by
  simp only [assignEntry, assignStep, h]
  split <;> rfl

theorem assignAll_filter_unknown {E : Env} {shape : Shape} {k : Str}
    (h : lookupField E shape k = none) (es : List (Str × Str)) (r : Record) :
    assignAll E shape r (es.filter (fun e => e.1 ≠ k)) = assignAll E shape r es := by
  induction es generalizing r with
  | nil => rfl
  | cons x rest ih =>
    obtain ⟨key, v⟩ := x
    by_cases hk : key = k
    · subst hk
      have hstep : assignStep E shape (lookupField E shape) r (key, v) = .returned (.ok r) :=
        assignEntry_unknown h v r
      simp only [List.filter_cons, ne_eq, not_true_eq_false, decide_False, Bool.false_eq_true,
        if_false, assignAll, assignLoop, hstep]
      exact ih r
    · simp only [List.filter_cons, ne_eq, hk, not_false_eq_true, decide_True, if_true,
        assignAll, assignLoop]
      split
      · rfl
      · rfl
      · rename_i r1 h1
        exact ih r1

theorem assignAll_reorder {E : Env} {shape : Shape} {k : Str}
    (h : lookupField E shape k = none) (r : Record) {d1 d2 es1 : List (Str × Str)}
    (hp : es1.Perm d1)
    (hrel : d1.filter (fun e => e.1 ≠ k) = d2.filter (fun e => e.1 ≠ k)) :
    ∃ es2 : List (Str × Str), es2.Perm d2 ∧
      assignAll E shape r es2 = assignAll E shape r es1 := by
  refine ⟨d2.filter (fun e => e.1 = k) ++ es1.filter (fun e => e.1 ≠ k), ?_, ?_⟩
  · have h1 : (es1.filter (fun e => e.1 ≠ k)).Perm (d2.filter (fun e => e.1 ≠ k)) := by
      rw [← hrel]
      exact hp.filter _
    have h2 := List.filter_append_perm (fun e : Str × Str => decide (e.1 = k)) d2
    have h3 : d2.filter (fun e => !decide (e.1 = k)) = d2.filter (fun e => e.1 ≠ k) := by
      apply List.filter_congr
      intro x _
      simp
    rw [h3] at h2
    exact (List.Perm.append_left _ h1).trans h2
  · rw [← assignAll_filter_unknown h, ← assignAll_filter_unknown h es1]
    congr 1
    rw [List.filter_append, List.filter_filter, List.filter_filter]
    have h4 : d2.filter (fun a => (decide (a.1 ≠ k) && decide (a.1 = k))) = [] := by
      rw [List.filter_eq_nil_iff]
      intro a _
      simp
    rw [h4, List.nil_append]
    apply List.filter_congr
    intro x _
    simp

theorem parseSingle_visiting {E : Env} (order : Map Str Str → Map Str Str) {dataStr : Str}
    {data : Map Str Str} (shape : Shape) (r : Record) (h : collect dataStr = .ok data) :
    parseSingle (E.visiting order) dataStr (.struct shape r) =
      ((assignAll E shape r (order data)).1,
        .struct shape (assignAll E shape r (order data)).2) := by
  rw [parseSingle_struct shape r h, assignAll_visiting]
  rfl

theorem mayReturn_transfer {E : Env} {shape : Shape} {k : Str} (r : Record) {a b : Str}
    (h : lookupField E shape k = none)
    (hrel : (∃ e, collect a = .error e ∧ collect b = .error e) ∨
      (∃ d d', collect a = .ok d ∧ collect b = .ok d' ∧
        d.filter (fun e => e.1 ≠ k) = d'.filter (fun e => e.1 ≠ k)))
    (o : Outcome (Option DecodeError) × Target) (ho : MayReturn E a (.struct shape r) o) :
    MayReturn E b (.struct shape r) o := by
  obtain ⟨order, hperm, hres⟩ := ho
  rcases hrel with ⟨e, ha, hb⟩ | ⟨d, d', ha, hb, hdd⟩
  · refine ⟨order, hperm, ?_⟩
    rw [← hres]
    simp [parseSingle, ha, hb]
  · obtain ⟨es2, hp2, heq⟩ := assignAll_reorder h r (hperm d) hdd
    refine ⟨fun m => if m = d' then es2 else m, ?_, ?_⟩
    · intro m
      show (if m = d' then es2 else m).Perm m
      by_cases hm : m = d'
      · rw [if_pos hm, hm]
        exact hp2
      · rw [if_neg hm]
    · rw [← hres, parseSingle_visiting _ shape r ha, parseSingle_visiting _ shape r hb]
      simp only [if_true]
      rw [heq]

/-- Claim C11, refuted as stated: the payload "content: hello" has no line beginning with a
space, and the key of the line " more: x" (the text before its colon, " more") equals no
field name of TicketComment ignoring case; yet with that line inserted after the first the
decode leaves Content = "hello\nmore: x" instead of "hello", whatever the order of visiting:
the inserted line begins with a space and is appended to the value of the previous key
before it is stored under its own. -/
theorem unknown_key_line_with_leading_space :
    (∀ l ∈ split '\n' "content: hello".toList, l.head? ≠ some ' ') ∧
    (∀ f ∈ TicketComment, equalFold env0 f.name " more".toList = false) ∧
    parseSingle env0 "content: hello".toList (.struct TicketComment TicketComment.zero) =
      (.returned none, .struct TicketComment (TicketComment.zero.set 3 (.str "hello".toList))) ∧
    parseSingle env1 "content: hello".toList (.struct TicketComment TicketComment.zero) =
      (.returned none, .struct TicketComment (TicketComment.zero.set 3 (.str "hello".toList))) ∧
    parseSingle env0 "content: hello\n more: x".toList
        (.struct TicketComment TicketComment.zero) =
      (.returned none, .struct TicketComment (TicketComment.zero.set 3 (.str "hello\nmore: x".toList))) ∧
    parseSingle env1 "content: hello\n more: x".toList
        (.struct TicketComment TicketComment.zero) =
      (.returned none, .struct TicketComment (TicketComment.zero.set 3 (.str "hello\nmore: x".toList))) := by
  refine ⟨by decide, by decide, by decide, by decide, by decide, by decide⟩

/-- Claim C11, amended: take a payload in which no line begins with a space, and a line
made of a key `k` without colon that does not begin with a space, a colon and any text, where
`k` equals no field name of the record type ignoring case.  The payload with that line
inserted at any line position has under `parseSingle` exactly the outcomes of the payload
without it: every outcome (error or success, and target afterwards) that some order of
visiting the collected entries gives for the one, some order gives for the other.  The entry
of `k` itself assigns nothing and reports no error, whatever its value. -/
theorem unknown_key_ignored (E : Env) (shape : Shape) (r : Record) (a b : Str)
    (l1 l2 : List Str) (k rest : Str)
    (ha : split '\n' a = l1 ++ l2) (hb : split '\n' b = l1 ++ (k ++ ':' :: rest) :: l2)
    (hk : ':' ∉ k) (hksp : k.head? ≠ some ' ')
    (hsp : ∀ l ∈ l1 ++ l2, l.head? ≠ some ' ')
    (hunk : ∀ f ∈ shape, equalFold E f.name k = false) :
    (∀ o, MayReturn E b (.struct shape r) o ↔ MayReturn E a (.struct shape r) o) ∧
    (∀ v r0, assignEntry E shape r0 (k, v) = .returned (.ok r0)) := by
  have hnone := lookupField_none_of_no_match hunk
  have hrel := collect_insert_line ha hb hk hksp hsp
  have hrel' : (∃ e, collect b = .error e ∧ collect a = .error e) ∨
      (∃ d d', collect b = .ok d ∧ collect a = .ok d' ∧
        d.filter (fun e => e.1 ≠ k) = d'.filter (fun e => e.1 ≠ k)) := by
    rcases hrel with ⟨e, h1, h2⟩ | ⟨d, d', h1, h2, h3⟩
    · exact Or.inl ⟨e, h2, h1⟩
    · exact Or.inr ⟨d', d, h2, h1, h3.symm⟩
  exact ⟨fun o => ⟨mayReturn_transfer r hnone hrel' o, mayReturn_transfer r hnone hrel o⟩,
    fun v r0 => assignEntry_unknown hnone v r0⟩

/-- Witness of `unknown_key_ignored`: the line "x-rt-note: none" inserted between the two
lines of "id: 7\nstatus: open" decoded into a fresh Ticket; what the order of appearance
gives without the line is an outcome with it. -/
theorem unknown_key_ignored_witness :
    MayReturn env0 "id: 7\nx-rt-note: none\nstatus: open".toList (.struct Ticket Ticket.zero)
      (parseSingle env0 "id: 7\nstatus: open".toList (.struct Ticket Ticket.zero)) :=
  ((unknown_key_ignored env0 Ticket Ticket.zero "id: 7\nstatus: open".toList
    "id: 7\nx-rt-note: none\nstatus: open".toList ["id: 7".toList] ["status: open".toList]
    "x-rt-note".toList " none".toList (by decide) (by decide) (by decide) (by decide)
    (by decide) (by decide)).1 _).2 ⟨id, fun m => List.Perm.refl m, rfl⟩

end RequestTracker
